import Mathlib

/-!
northconn/go-lib: lifecycle runtime, wide-event aggregator, logger setup and HTTP server
construction.

A shallow embedding of `lifecycle/runtime.go`, `telemetry/log/wide_event.go`,
`telemetry/log/logger.go` and the files of package `server`.

Go function values (`Setup`, `Starter`, `Stopper`) are effectful closures.  They are
embedded as state transformers over an arbitrary world type `W`, together with a label
that names the function value in the call trace.  The runtime code is embedded as
functions on a `Machine`, which carries the world, the trace of calls the runtime code
has made, and the records written through the process logger.  The function values act
on the world only: they do not call back into the runtime that invokes them.

A `WideEvent` is embedded as the value of its fields; each method maps the event (and,
for the committing methods, the sink) to its state after the call.  The sink is the
event's logger: a record is one call of `LogAttrs`, and what the handler does with it
(level filtering, encoding, output) lies outside the package.  Readings of the clock and
of the random source are arguments of the functions that take them.

A clock reading carries a wall-clock and a monotonic reading: attributes of kind time
hold the wall-clock one, `Sub` subtracts the monotonic ones.  Concurrent calls on one
event are embedded as interleavings of atomic steps, a step being the code a call runs
between `Lock` and `Unlock`, or the emission `Commit` performs after `Unlock`.

Events reached through a pointer live in a heap, a list indexed by address.  A Go call
that can panic returns an `Except String`, the error being the panic.  A context is the
nil interface or a chain of bindings over `context.Background()`.
-/

/-- Go `error` values are represented by their text; `none` is the nil error. -/
abbrev GoError := String

namespace lifecycle

/-- One invocation of a function value made by the runtime code. -/
inductive Call where
  | setup (label : Nat)
  | start (label : Nat)
  | stop (label : Nat)
deriving DecidableEq, Repr

/-- A record written by `log.Logger().Error(msg, key, err)`. -/
structure ErrorLine where
  msg : String
  key : String
  err : GoError
deriving DecidableEq, Repr

/-- The part of the process the runtime code acts on. -/
structure Machine (W : Type) where
  world : W
  calls : List Call
  logged : List ErrorLine

/-- Go `type Stopper func()`: a non-nil function value. -/
structure Stopper (W : Type) where
  label : Nat
  body : W → W

/-- Go `type Starter func() (Stopper, error)`: a non-nil function value.  Both results are
    returned as Go returns them; a nil `Stopper` is `none`, a nil `error` is `none`. -/
structure Starter (W : Type) where
  label : Nat
  body : W → W × Option (Stopper W) × Option GoError

/-- Go `type Setup func() (Starter, error)`: a non-nil function value. -/
structure Setup (W : Type) where
  label : Nat
  body : W → W × Option (Starter W) × Option GoError

/-- Go `type Runtime struct { starters []Starter; stoppers []Stopper }`.  The fields are
    unexported and written only by `NewRuntime` and `Start`, both of which append only
    values that passed a `!= nil` test, so the slices hold non-nil function values. -/
structure Runtime (W : Type) where
  starters : List (Starter W)
  stoppers : List (Stopper W)

variable {W : Type}

/-- The call `stopper()`. -/
def Stopper.call (s : Stopper W) (m : Machine W) : Machine W :=
  { m with world := s.body m.world, calls := m.calls ++ [Call.stop s.label] }

/-- The call `starter()`, with its two results. -/
def Starter.call (t : Starter W) (m : Machine W) :
    Machine W × Option (Stopper W) × Option GoError :=
  ({ m with world := (t.body m.world).1, calls := m.calls ++ [Call.start t.label] },
    (t.body m.world).2.1, (t.body m.world).2.2)

/-- The call `setup()`, with its two results. -/
def Setup.call (s : Setup W) (m : Machine W) :
    Machine W × Option (Starter W) × Option GoError :=
  ({ m with world := (s.body m.world).1, calls := m.calls ++ [Call.setup s.label] },
    (s.body m.world).2.1, (s.body m.world).2.2)

/-- How `NewRuntime` ends: it returns the runtime, or the process exits. -/
inductive Outcome (W : Type) where
  | returned (r : Runtime W) (m : Machine W)
  | exited (code : Nat) (m : Machine W)

/-- The loop `for _, setup := range setups` of `NewRuntime`. -/
def NewRuntime.loop : List (Setup W) → Runtime W → Machine W → Outcome W
  | [], r, m => Outcome.returned r m
  | setup :: rest, r, m =>
    match setup.call m with
    | (m1, _, some err) =>
      Outcome.exited 1
        { m1 with logged := m1.logged ++ [⟨"failed to set up component", "error", err⟩] }
    | (m1, some starter, none) =>
      NewRuntime.loop rest { r with starters := r.starters ++ [starter] } m1
    | (m1, none, none) => NewRuntime.loop rest r m1

/-- Go `func NewRuntime(setups ...Setup) *Runtime`. -/
def NewRuntime (setups : List (Setup W)) (m : Machine W) : Outcome W :=
  NewRuntime.loop setups { starters := [], stoppers := [] } m

/-- The loop `for _, starter := range r.starters` of `Start`; the third component is the
    returned error. -/
def Runtime.Start.loop :
    List (Starter W) → Runtime W → Machine W → Runtime W × Machine W × Option GoError
  | [], r, m => (r, m, none)
  | starter :: rest, r, m =>
    match starter.call m with
    | (m1, _, some err) => (r, m1, some err)
    | (m1, some stopper, none) =>
      Runtime.Start.loop rest { r with stoppers := r.stoppers ++ [stopper] } m1
    | (m1, none, none) => Runtime.Start.loop rest r m1

/-- Go `func (r *Runtime) Start() error`. -/
def Runtime.Start (r : Runtime W) (m : Machine W) : Runtime W × Machine W × Option GoError :=
  Runtime.Start.loop r.starters r m

/-- The loop `for i := len(r.stoppers) - 1; i >= 0; i--` of `Stop`.  The counter is
    `i + 1`; `none` is the run-time panic of an index out of range. -/
def Runtime.Stop.loop (r : Runtime W) : Nat → Machine W → Option (Machine W)
  | 0, m => some m
  | i + 1, m =>
    match r.stoppers[i]? with
    | none => none
    | some stopper => Runtime.Stop.loop r i (stopper.call m)

/-- Go `func (r *Runtime) Stop()`: the runtime and machine after the call. -/
def Runtime.Stop (r : Runtime W) (m : Machine W) : Option (Runtime W × Machine W) :=
  (Runtime.Stop.loop r r.stoppers.length m).map fun m1 => (r, m1)

/-- The trace entries of invoking the given stoppers one after the other. -/
def stopCalls (ss : List (Stopper W)) : List Call :=
  ss.map fun s => Call.stop s.label

/-- The trace entries of invoking the given starters one after the other. -/
def startCalls (ts : List (Starter W)) : List Call :=
  ts.map fun t => Call.start t.label

/-- The trace entries of invoking the given setups one after the other. -/
def setupCalls (ss : List (Setup W)) : List Call :=
  ss.map fun s => Call.setup s.label

/-- The world after the given stoppers have run one after the other. -/
def runStoppers (ss : List (Stopper W)) (w : W) : W :=
  ss.foldl (fun w1 s => s.body w1) w

/-- The starters `ts`, run one after the other from world `w`, all return a nil error;
    `outs` lists the `Stopper` results (nil as `none`) and `w1` is the world they leave. -/
inductive Succeed : List (Starter W) → W → List (Option (Stopper W)) → W → Prop where
  | nil (w : W) : Succeed [] w [] w
  | cons {t : Starter W} {ts : List (Starter W)} {w w1 w2 : W} {o : Option (Stopper W)}
      {outs : List (Option (Stopper W))} :
      t.body w = (w1, o, none) → Succeed ts w1 outs w2 → Succeed (t :: ts) w (o :: outs) w2

/-- The setups `ss`, run one after the other from world `w`, all return a nil error;
    `outs` lists the `Starter` results (nil as `none`) and `w1` is the world they leave. -/
inductive SetupsSucceed : List (Setup W) → W → List (Option (Starter W)) → W → Prop where
  | nil (w : W) : SetupsSucceed [] w [] w
  | cons {s : Setup W} {ss : List (Setup W)} {w w1 w2 : W} {o : Option (Starter W)}
      {outs : List (Option (Starter W))} :
      s.body w = (w1, o, none) → SetupsSucceed ss w1 outs w2 →
      SetupsSucceed (s :: ss) w (o :: outs) w2

end lifecycle

namespace log

/-- Go `slog.Level` is an `int`. -/
abbrev Level := Int

/-- Go `slog.LevelDebug`. -/
def LevelDebug : Level := -4

/-- Go `slog.LevelInfo`. -/
def LevelInfo : Level := 0

/-- Go `slog.LevelWarn`. -/
def LevelWarn : Level := 4

/-- Go `slog.LevelError`. -/
def LevelError : Level := 8

/-- A `time.Time` value: the wall-clock reading, in nanoseconds, and the monotonic-clock
    reading, in nanoseconds, when the value carries one.  A value returned by `time.Now()`
    carries both. -/
structure Time where
  wall : Int
  mono : Option Int
deriving DecidableEq, Repr

/-- Go `time.Duration` is an `int64` count of nanoseconds. -/
abbrev Duration := Int

/-- The largest `time.Duration`. -/
def maxDuration : Duration := 2 ^ 63 - 1

/-- The smallest `time.Duration`. -/
def minDuration : Duration := -(2 ^ 63)

/-- The duration for an exact difference `d`: the largest or smallest duration when `d`
    does not fit. -/
def saturateDuration (d : Int) : Duration :=
  if d > maxDuration then maxDuration
  else if d < minDuration then minDuration
  else d

/-- Go `func (t Time) Sub(u Time) Duration` of the standard library: when both values
    carry a monotonic reading, the difference of the monotonic readings, and otherwise
    the difference of the wall-clock readings. -/
def Time.Sub (t u : Time) : Duration :=
  match t.mono, u.mono with
  | some a, some b => saturateDuration (a - b)
  | _, _ => saturateDuration (t.wall - u.wall)

/-- A Go value passed as `any`, by dynamic type. -/
inductive GoAny where
  | nil
  | str (s : String)
  | int (i : Int)
  | bool (b : Bool)
  | other (tag : Nat)
deriving DecidableEq, Repr

/-- Go `slog.Value`, by kind.  A value of kind time holds a wall-clock instant:
    `slog.TimeValue` drops the monotonic reading. -/
inductive Value where
  | str (s : String)
  | bool (b : Bool)
  | int64 (i : Int)
  | time (wall : Int)
  | duration (d : Duration)
  | any (a : GoAny)
deriving DecidableEq, Repr

/-- Go `slog.Attr`: a key and a value. -/
structure Attr where
  key : String
  value : Value
deriving DecidableEq, Repr

/-- Go `slog.String(key, value)`. -/
def slogString (key value : String) : Attr := ⟨key, Value.str value⟩

/-- Go `slog.Bool(key, v)`. -/
def slogBool (key : String) (v : Bool) : Attr := ⟨key, Value.bool v⟩

/-- Go `slog.Time(key, v)`. -/
def slogTime (key : String) (v : Time) : Attr := ⟨key, Value.time v.wall⟩

/-- Go `slog.Duration(key, v)`. -/
def slogDuration (key : String) (v : Duration) : Attr := ⟨key, Value.duration v⟩

/-- Go `slog.AnyValue(v)`: the value kind is chosen by the dynamic type of `v`. -/
def slogAnyValue : GoAny → Value
  | GoAny.str s => Value.str s
  | GoAny.int i => Value.int64 i
  | GoAny.bool b => Value.bool b
  | a => Value.any a

/-- Go `slog.Any(key, value)`. -/
def slogAny (key : String) (value : GoAny) : Attr := ⟨key, slogAnyValue value⟩

/-- A `*slog.Logger`, by identity. -/
structure Logger where
  id : Nat
deriving DecidableEq, Repr

/-- Keys of context bindings: `wideEventKey` and `loggerKey` of package `log`,
    `http2CorrelationIdKey` of package `server`, and keys of other packages. -/
inductive CtxKey where
  | wideEventKey
  | loggerKey
  | http2CorrelationIdKey
  | foreign (tag : Nat)
deriving DecidableEq, Repr

/-- Values bound in a context: a `*WideEvent` (by address, `none` the nil pointer), a
    `*slog.Logger`, a `string`, or a value of another type. -/
inductive CtxValue where
  | wideEvent (ptr : Option Nat)
  | logger (l : Logger)
  | str (s : String)
  | foreign (tag : Nat)
deriving DecidableEq, Repr

/-- A non-nil `context.Context`: `context.Background()` or the result of
    `context.WithValue(parent, key, val)`, whose parent is never nil. -/
inductive Ctx where
  | background
  | withValue (parent : Ctx) (key : CtxKey) (val : CtxValue)
deriving DecidableEq, Repr

/-- A `context.Context` interface value; `none` is the nil interface. -/
abbrev Context := Option Ctx

/-- The context `context.Background()` as an interface value. -/
def Context.background : Context := some Ctx.background

/-- One call `logger.LogAttrs(ctx, level, msg, attrs...)`: the record handed to the sink,
    with the logger it was handed to. -/
structure Record where
  logger : Logger
  ctx : Context
  level : Level
  msg : String
  attrs : List Attr
deriving DecidableEq, Repr

/-- Go `type WideEvent struct`; the mutex is left out, the methods are run one at a time. -/
structure WideEvent where
  logger : Logger
  name : String
  start : Time
  level : Level
  message : String
  committed : Bool
  attrs : List Attr
deriving DecidableEq, Repr

/-- One hexadecimal digit of `hex.EncodeToString`. -/
def hexDigit (n : Nat) : Char :=
  "0123456789abcdef".toList.getD n '0'

/-- Go `hex.EncodeToString(b)`. -/
def hexEncodeToString (b : List (Fin 256)) : String :=
  String.mk (b.flatMap fun x => [hexDigit (x.val / 16), hexDigit (x.val % 16)])

/-- Go `func newEventID() string`; `b` is the 16 bytes filled in by `rand.Read`. -/
def newEventID (b : List (Fin 256)) : String :=
  hexEncodeToString b

/-- Go `func New(name string, initial ...slog.Attr) *WideEvent`.  `dflt` is the logger
    returned by `Logger()`, `now` the reading of `time.Now()`, `rnd` the random bytes. -/
def New (dflt : Logger) (now : Time) (rnd : List (Fin 256)) (name : String)
    (initial : List Attr) : WideEvent :=
  let we : WideEvent :=
    { logger := dflt, name := name, start := now, level := LevelInfo, message := name,
      committed := false, attrs := [] }
  let we1 : WideEvent :=
    { we with attrs := we.attrs ++
        [slogString "event" name, slogString "event_id" (newEventID rnd),
         slogTime "event_start" we.start] }
  if initial.length > 0 then { we1 with attrs := we1.attrs ++ initial } else we1

/-- Go `func (we *WideEvent) Add(attrs ...slog.Attr)`. -/
def WideEvent.Add (we : WideEvent) (attrs : List Attr) : WideEvent :=
  if attrs.length = 0 then we
  else if we.committed then we
  else { we with attrs := we.attrs ++ attrs }

/-- The loop `for i := 0; i+1 < len(kv); i += 2` of `AddKVs`, from index `i` with the
    attributes collected so far. -/
def WideEvent.AddKVs.loop (kv : List GoAny) (i : Nat) (attrs : List Attr) : List Attr :=
  if h : i + 1 < kv.length then
    match kv[i] with
    | GoAny.str k =>
      if k = "" then WideEvent.AddKVs.loop kv (i + 2) attrs
      else WideEvent.AddKVs.loop kv (i + 2) (attrs ++ [slogAny k kv[i + 1]])
    | _ => WideEvent.AddKVs.loop kv (i + 2) attrs
  else attrs
termination_by kv.length - i

/-- Go `func (we *WideEvent) AddKVs(kv ...any)`. -/
def WideEvent.AddKVs (we : WideEvent) (kv : List GoAny) : WideEvent :=
  if kv.length = 0 then we
  else we.Add (WideEvent.AddKVs.loop kv 0 [])

/-- Go `func (we *WideEvent) SetLevel(level slog.Level)`. -/
def WideEvent.SetLevel (we : WideEvent) (level : Level) : WideEvent :=
  if we.committed then we
  else { we with level := level }

/-- Go `func (we *WideEvent) SetMessage(msg string)`. -/
def WideEvent.SetMessage (we : WideEvent) (msg : String) : WideEvent :=
  if msg = "" then we
  else if we.committed then we
  else { we with message := msg }

/-- Go `func (we *WideEvent) Commit(ctx context.Context, extra ...slog.Attr)`: the event
    and the sink after the call.  `now` is the reading of `time.Now()`. -/
def WideEvent.Commit (we : WideEvent) (sink : List Record) (now : Time) (ctx : Context)
    (extra : List Attr) : WideEvent × List Record :=
  if we.committed then (we, sink)
  else
    let we1 : WideEvent := { we with committed := true }
    let attrs := [] ++ we1.attrs
    let duration := now.Sub we1.start
    let attrs1 := attrs ++ [slogTime "event_end" now, slogDuration "event_duration" duration]
    let attrs2 := if extra.length > 0 then attrs1 ++ extra else attrs1
    (we1, sink ++ [⟨we1.logger, ctx, we1.level, we1.message, attrs2⟩])

/-- Go `func (we *WideEvent) CommitError(ctx context.Context, err error, extra ...slog.Attr)`;
    `err.Error()` is the text of the error. -/
def WideEvent.CommitError (we : WideEvent) (sink : List Record) (now : Time) (ctx : Context)
    (err : Option GoError) (extra : List Attr) : WideEvent × List Record :=
  let we1 :=
    match err with
    | some e => we.Add [slogBool "error" true, slogString "error_message" e]
    | none => we.Add [slogBool "error" true]
  let we2 := we1.SetLevel LevelError
  we2.Commit sink now ctx extra

/-- Go `func (we *WideEvent) Cancel(ctx context.Context, reason string, extra ...slog.Attr)`. -/
def WideEvent.Cancel (we : WideEvent) (sink : List Record) (now : Time) (ctx : Context)
    (reason : String) (extra : List Attr) : WideEvent × List Record :=
  let we1 := we.Add [slogBool "cancelled" true]
  let we2 := if reason ≠ "" then we1.Add [slogString "cancel_reason" reason] else we1
  let we3 := we2.SetLevel LevelWarn
  we3.Commit sink now ctx extra

/-- One method call on a `WideEvent`; the calls that can reach `time.Now()` carry its
    reading. -/
inductive Op where
  | add (attrs : List Attr)
  | addKVs (kv : List GoAny)
  | setLevel (level : Level)
  | setMessage (msg : String)
  | commit (now : Time) (ctx : Context) (extra : List Attr)
  | commitError (now : Time) (ctx : Context) (err : Option GoError) (extra : List Attr)
  | cancel (now : Time) (ctx : Context) (reason : String) (extra : List Attr)
deriving DecidableEq, Repr

/-- The calls that end in `Commit`. -/
def Op.isCommitting : Op → Bool
  | Op.commit _ _ _ => true
  | Op.commitError _ _ _ _ => true
  | Op.cancel _ _ _ _ => true
  | _ => false

/-- The event and the sink after one method call. -/
def step (s : WideEvent × List Record) : Op → WideEvent × List Record
  | Op.add attrs => (s.1.Add attrs, s.2)
  | Op.addKVs kv => (s.1.AddKVs kv, s.2)
  | Op.setLevel level => (s.1.SetLevel level, s.2)
  | Op.setMessage msg => (s.1.SetMessage msg, s.2)
  | Op.commit now ctx extra => s.1.Commit s.2 now ctx extra
  | Op.commitError now ctx err extra => s.1.CommitError s.2 now ctx err extra
  | Op.cancel now ctx reason extra => s.1.Cancel s.2 now ctx reason extra

/-- The event and the sink after a sequence of method calls, applied one after the other. -/
def run (s : WideEvent × List Record) (ops : List Op) : WideEvent × List Record :=
  ops.foldl step s

/-- The attribute of the pair starting at index `j` of `kv`: `(kv[j], kv[j+1])` when
    `kv[j]` is a non-empty string, nothing otherwise. -/
def pairAt (kv : List GoAny) (j : Nat) : Option Attr :=
  match kv[j]? with
  | some (GoAny.str k) =>
    if k = "" then none else some (slogAny k (kv.getD (j + 1) GoAny.nil))
  | _ => none

/-- The attributes of the well-formed pairs of `kv`: for each `i` with `2i+1 < len(kv)`,
    in increasing order, the attribute `(kv[2i], kv[2i+1])` when `kv[2i]` is a non-empty
    string. -/
def pairAttrs (kv : List GoAny) : List Attr :=
  (List.range (kv.length / 2)).filterMap fun i => pairAt kv (2 * i)

end log

namespace lifecycle

/-- A stopper labelled `n` over a numeric world. -/
def sampleStopper (n : Nat) : Stopper Nat :=
  { label := n, body := fun w => 10 * w + n }

/-- A starter that succeeds and returns a stopper. -/
def sampleStarter (n : Nat) : Starter Nat :=
  { label := n, body := fun w => (w + 1, some (sampleStopper n), none) }

/-- A starter that succeeds and returns no stopper. -/
def sampleStarterNoStopper (n : Nat) : Starter Nat :=
  { label := n, body := fun w => (w + 1, none, none) }

/-- A starter that fails, returning a stopper along with the error. -/
def sampleStarterFailing (n : Nat) : Starter Nat :=
  { label := n, body := fun w => (w + 1, some (sampleStopper n), some "boom") }

/-- A setup that succeeds and returns the given starter. -/
def sampleSetup (n : Nat) (t : Starter Nat) : Setup Nat :=
  { label := n, body := fun w => (w + 100, some t, none) }

/-- A setup that succeeds and returns no starter. -/
def sampleSetupNoStarter (n : Nat) : Setup Nat :=
  { label := n, body := fun w => (w + 100, none, none) }

/-- A machine on which nothing has run yet. -/
def sampleMachine : Machine Nat :=
  { world := 0, calls := [], logged := [] }

/-- Four starters, the third of which fails. -/
def sampleStarters : List (Starter Nat) :=
  [sampleStarter 1, sampleStarterNoStopper 2, sampleStarterFailing 3, sampleStarter 4]

/-- Setups for three components and one that has no run phase. -/
def sampleSetups : List (Setup Nat) :=
  [sampleSetup 11 (sampleStarter 1), sampleSetupNoStarter 12,
   sampleSetup 13 (sampleStarterNoStopper 2), sampleSetup 14 (sampleStarterFailing 3)]

end lifecycle

namespace log

/-- Sixteen bytes as `rand.Read` may deliver them. -/
def sampleBytes : List (Fin 256) := List.replicate 16 171

/-- An event as `New("checkout")` creates it. -/
def sampleEvent : WideEvent :=
  New ⟨1⟩ ⟨100, some 1100⟩ sampleBytes "checkout" []

/-- The event `sampleEvent` after a `Commit`. -/
def sampleCommitted : WideEvent :=
  (sampleEvent.Commit [] ⟨150, some 1150⟩ Context.background []).1

/-- Calls on one event, two of them committing. -/
def sampleOps : List Op :=
  [Op.add [slogString "user" "u1"], Op.setLevel LevelDebug,
   Op.commit ⟨150, some 1150⟩ Context.background [], Op.add [slogString "late" "x"],
   Op.cancel ⟨160, some 1160⟩ Context.background "timeout" [], Op.commit ⟨170, some 1170⟩ Context.background []]

/-- An event created with an initial attribute under the key `error_message`. -/
def staleErrorEvent : WideEvent :=
  New ⟨1⟩ ⟨100, some 1100⟩ sampleBytes "checkout" [slogString "error_message" "stale"]

/-- An event created with an initial attribute `cancel_reason` whose text is empty. -/
def staleCancelEvent : WideEvent :=
  New ⟨1⟩ ⟨100, some 1100⟩ sampleBytes "checkout" [slogString "cancel_reason" ""]

end log

namespace lifecycle

/-- A setup that fails, returning a starter along with the error. -/
def sampleSetupFailing (n : Nat) : Setup Nat :=
  { label := n, body := fun w => (w + 100, some (sampleStarter n), some "no config") }

/-- The runtime `NewRuntime` builds from one setup whose starter returns a stopper. -/
def sampleBuilt : Runtime Nat :=
  { starters := [sampleStarter 1], stoppers := [] }

end lifecycle


namespace log

/-- The method `Value(key)` of a non-nil context: the value bound to `key` nearest to the
    top of the chain, `none` (the nil interface) when there is none. -/
def Ctx.Value : Ctx → CtxKey → Option CtxValue
  | Ctx.background, _ => none
  | Ctx.withValue parent key val, k => if key = k then some val else parent.Value k

/-- The call `ctx.Value(key)` on an interface value: a method call on the nil interface
    panics.  A panic is an `Except.error` carrying its message. -/
def Context.Value (ctx : Context) (key : CtxKey) : Except String (Option CtxValue) :=
  match ctx with
  | none => Except.error "invalid memory address or nil pointer dereference"
  | some c => Except.ok (c.Value key)

/-- Go `context.WithValue(parent, key, val)`: panics on a nil parent. -/
def contextWithValue (parent : Context) (key : CtxKey) (val : CtxValue) :
    Except String Context :=
  match parent with
  | none => Except.error "cannot create context from nil parent"
  | some c => Except.ok (some (Ctx.withValue c key val))

/-- Go `func (we *WideEvent) WithContext(ctx context.Context) context.Context`; the
    receiver is the address of the event (`none` the nil pointer). -/
def WideEvent.WithContext (we : Option Nat) (ctx : Context) : Except String Context :=
  let ctx1 : Context := if ctx = none then Context.background else ctx
  contextWithValue ctx1 CtxKey.wideEventKey (CtxValue.wideEvent we)

/-- Go `func WideEventFromContext(ctx context.Context) (*WideEvent, bool)`. -/
def WideEventFromContext (ctx : Context) : Except String (Option Nat × Bool) :=
  if ctx = none then Except.ok (none, false)
  else
    match ctx.Value CtxKey.wideEventKey with
    | Except.error p => Except.error p
    | Except.ok none => Except.ok (none, false)
    | Except.ok (some (CtxValue.wideEvent we)) => Except.ok (we, true)
    | Except.ok (some _) => Except.ok (none, false)

/-- The events allocated so far; the event at address `p` is the `p`-th one, and an
    allocation takes the next address. -/
abbrev Heap := List WideEvent

/-- Go `func EnsureWideEventFromContext(ctx, name, initial...) (context.Context,
    *WideEvent)`: the heap, the context and the address after the call.  The arguments
    `dflt`, `now` and `rnd` are those of `New`. -/
def EnsureWideEventFromContext (heap : Heap) (dflt : Logger) (now : Time)
    (rnd : List (Fin 256)) (ctx : Context) (name : String) (initial : List Attr) :
    Except String (Heap × Context × Option Nat) :=
  match WideEventFromContext ctx with
  | Except.error p => Except.error p
  | Except.ok (some we, true) => Except.ok (heap, ctx, some we)
  | Except.ok _ =>
    let we := heap.length
    match WideEvent.WithContext (some we) ctx with
    | Except.error p => Except.error p
    | Except.ok ctx1 => Except.ok (heap ++ [New dflt now rnd name initial], ctx1, some we)

/-- Whether a binding under `wideEventKey` lies on the chain of the context. -/
def Ctx.carriesWideEvent : Ctx → Bool
  | Ctx.background => false
  | Ctx.withValue parent key _ => key == CtxKey.wideEventKey || parent.carriesWideEvent

/-- The level of the last `SetLevel` call among `ops`, if there is one. -/
def lastLevel (ops : List Op) : Option Level :=
  (ops.filterMap fun op =>
    match op with
    | Op.setLevel level => some level
    | _ => none).getLast?

/-- The text of the last `SetMessage` call among `ops` whose text is not empty, if there
    is one. -/
def lastMessage (ops : List Op) : Option String :=
  (ops.filterMap fun op =>
    match op with
    | Op.setMessage msg => if msg = "" then none else some msg
    | _ => none).getLast?

/-- Calls before a commit: levels and messages set several times, an empty message
    among them. -/
def sampleSetters : List Op :=
  [Op.setLevel LevelWarn, Op.setMessage "paid", Op.add [slogString "user" "u1"],
   Op.setLevel LevelError, Op.setMessage "", Op.setLevel LevelDebug]

/-- Go `type LogConfig struct`. -/
structure LogConfig where
  Level : String
deriving DecidableEq, Repr

/-- Go `unicode.ToUpper(r)`: ASCII letters are mapped by arithmetic, every other rune by
    the Unicode case tables, which are the argument `table`. -/
def unicodeToUpper (table : Char → Char) (r : Char) : Char :=
  if r.toNat ≤ 127 then
    if 97 ≤ r.toNat ∧ r.toNat ≤ 122 then Char.ofNat (r.toNat - 32) else r
  else table r

/-- Go `strings.ToUpper(s)`. -/
def stringsToUpper (table : Char → Char) (s : String) : String :=
  String.mk (s.data.map (unicodeToUpper table))

/-- What `Setup` builds, installs as the process default and returns: the logger and the
    level of its handler options. -/
structure SetupResult where
  logger : Logger
  level : Level
deriving DecidableEq, Repr

/-- Go `func Setup(cfg LogConfig) *slog.Logger`; `fresh` is the logger `slog.New` makes. -/
def Setup (table : Char → Char) (fresh : Logger) (cfg : LogConfig) : SetupResult :=
  let level := LevelDebug
  let upper := stringsToUpper table cfg.Level
  let level1 :=
    if upper = "DEBUG" then LevelDebug
    else if upper = "INFO" then LevelInfo
    else if upper = "WARN" then LevelWarn
    else if upper = "ERROR" then LevelError
    else level
  { logger := fresh, level := level1 }

/-- A value of interface type `any`, by dynamic type, for the two slice types that meet in
    `FromContext`. -/
inductive AnySlice where
  | ofAttr (v : List Attr)
  | ofAny (v : List GoAny)
deriving DecidableEq, Repr

/-- The type assertion `x.([]any)` in its one-result form: it yields the slice when the
    dynamic type of `x` is `[]any` and panics otherwise. -/
def assertSliceOfAny : AnySlice → Except String (List GoAny)
  | AnySlice.ofAny v => Except.ok v
  | AnySlice.ofAttr _ =>
    Except.error "interface conversion: interface is []slog.Attr, not []interface"

/-- Go `func FromContext(ctx context.Context, attrs ...slog.Attr) *slog.Logger` of
    `logger.go`.  `dflt` is `slog.Default()` and `slogWith` the method `logger.With`. -/
def FromContext (slogWith : Logger → List GoAny → Logger) (dflt : Logger) (ctx : Context)
    (attrs : List Attr) : Except String Logger :=
  match ctx.Value CtxKey.loggerKey with
  | Except.error p => Except.error p
  | Except.ok v =>
    let logger :=
      match v with
      | some (CtxValue.logger l) => l
      | _ => dflt
    if attrs.length > 0 then
      match assertSliceOfAny (AnySlice.ofAttr attrs) with
      | Except.error p => Except.error p
      | Except.ok args => Except.ok (slogWith logger args)
    else Except.ok logger

end log


namespace log

/-- Case tables that map every rune to itself. -/
def sampleTable : Char → Char := fun c => c

/-- A `With` method that returns the logger it is called on. -/
def sampleWith : Logger → List GoAny → Logger := fun l _ => l

end log


namespace server

/-- The error value `ErrTLSDisabledForTLSOnlyServer` of `errors.go`. -/
def ErrTLSDisabledForTLSOnlyServer : GoError := "TLS is disabled for a TLS-only server"

/-- Go `type HTTPServerConfig struct`. -/
structure HTTPServerConfig where
  ServerAddress : String
  EnableTLS : Bool
  TLSCertFile : String
  TLSKeyFile : String
  ReadHeaderTimeoutSeconds : Int
  ReadTimeoutSeconds : Int
  WriteTimeoutSeconds : Int
deriving DecidableEq, Repr

/-- A `tls.Certificate`, by identity. -/
structure tls.Certificate where
  id : Nat
deriving DecidableEq, Repr

/-- The fields of `tls.Config` the package sets. -/
structure tls.Config where
  Certificates : List tls.Certificate
  MinVersion : Nat
deriving DecidableEq, Repr

/-- Go `tls.VersionTLS12`. -/
def tls.VersionTLS12 : Nat := 0x0303

/-- The fields of `http.Server` the package sets; `H` is the type of handlers. -/
structure Server (H : Type) where
  BaseContext : log.Context
  ReadHeaderTimeout : log.Duration
  ReadTimeout : log.Duration
  WriteTimeout : log.Duration
  Addr : String
  Handler : H
  TLSConfig : Option tls.Config

variable {H : Type}

/-- The value of a 64-bit signed integer computation whose exact result is `n`. -/
def wrapInt64 (n : Int) : Int :=
  (n + 2 ^ 63) % 2 ^ 64 - 2 ^ 63

/-- The expression `time.Duration(n) * time.Second`. -/
def secondsOf (n : Int) : log.Duration :=
  wrapInt64 (n * 1000000000)

/-- Go `func applyHTTP2Middlewares(handler http.Handler, middlewares ...HTTP2Middleware)`. -/
def applyHTTP2Middlewares (handler : H) (middlewares : List (H → H)) : H :=
  middlewares.foldl (fun h mw => mw h) handler

/-- Go `func NewHTTPServer(ctx, cfg, mux, middlewares...) *http.Server`. -/
def NewHTTPServer (ctx : log.Context) (cfg : HTTPServerConfig) (mux : H)
    (middlewares : List (H → H)) : Server H :=
  { BaseContext := ctx
    ReadHeaderTimeout := secondsOf cfg.ReadHeaderTimeoutSeconds
    ReadTimeout := secondsOf cfg.ReadTimeoutSeconds
    WriteTimeout := secondsOf cfg.WriteTimeoutSeconds
    Addr := cfg.ServerAddress
    Handler := applyHTTP2Middlewares mux middlewares
    TLSConfig := none }

/-- Go `func NewHTTP2ServerWithTLS(ctx, cfg, mux, middlewares...) (*http.Server, error)`;
    `loadX509KeyPair` is `tls.LoadX509KeyPair`, which reads the two files. -/
def NewHTTP2ServerWithTLS (loadX509KeyPair : String → String → Except GoError tls.Certificate)
    (ctx : log.Context) (cfg : HTTPServerConfig) (mux : H) (middlewares : List (H → H)) :
    Except GoError (Server H) :=
  if cfg.EnableTLS then Except.error ErrTLSDisabledForTLSOnlyServer
  else
    let server := NewHTTPServer ctx cfg mux middlewares
    match loadX509KeyPair cfg.TLSCertFile cfg.TLSKeyFile with
    | Except.error err => Except.error err
    | Except.ok cert =>
      Except.ok
        { server with
          TLSConfig := some { Certificates := [cert], MinVersion := tls.VersionTLS12 } }

/-- Go `func NewHTTP2Server(ctx, cfg, mux, middlewares...) (*http.Server, error)`;
    `h2cNewHandler` wraps a handler as `h2c.NewHandler(h, &http2.Server{})` does. -/
def NewHTTP2Server (loadX509KeyPair : String → String → Except GoError tls.Certificate)
    (h2cNewHandler : H → H) (ctx : log.Context) (cfg : HTTPServerConfig) (mux : H)
    (middlewares : List (H → H)) : Except GoError (Server H) :=
  if cfg.EnableTLS then NewHTTP2ServerWithTLS loadX509KeyPair ctx cfg mux []
  else
    let server := NewHTTPServer ctx cfg mux middlewares
    Except.ok { server with Handler := h2cNewHandler server.Handler }

/-- The parts of an `*http.Request` the middlewares read; `r.Context()` is never nil. -/
structure Request where
  ctx : log.Ctx
  Method : String
  Path : String
deriving DecidableEq, Repr

/-- Go `func (r *Request) WithContext(ctx context.Context) *Request`: panics on nil. -/
def Request.WithContext (r : Request) (ctx : log.Context) : Except String Request :=
  match ctx with
  | none => Except.error "nil context"
  | some c => Except.ok { r with ctx := c }

/-- The state a handler acts on: the events allocated and the records emitted. -/
structure Proc where
  heap : log.Heap
  sink : List log.Record
deriving DecidableEq, Repr

/-- The call `next.ServeHTTP(w, r)` of a handler that returns; what it writes to the
    response is left out. -/
abbrev Handler := Request → Proc → Proc

/-- Go `func newHTTP2ContextWithCorrelationID(ctx, correlationID) context.Context`. -/
def newHTTP2ContextWithCorrelationID (ctx : log.Context) (correlationID : String) :
    Except String log.Context :=
  log.contextWithValue ctx log.CtxKey.http2CorrelationIdKey (log.CtxValue.str correlationID)

/-- Go `func GetHTTP2CorrelationID(ctx context.Context) string`. -/
def GetHTTP2CorrelationID (ctx : log.Context) : Except String String :=
  match ctx.Value log.CtxKey.http2CorrelationIdKey with
  | Except.error p => Except.error p
  | Except.ok (some (log.CtxValue.str correlationID)) => Except.ok correlationID
  | Except.ok _ => Except.ok ""

/-- The call `wideEvent.Commit(ctx)` on the event at an address: a nil or dangling
    address panics. -/
def commitAt (p : Proc) (wideEvent : Option Nat) (now : log.Time) (ctx : log.Context) :
    Except String Proc :=
  match wideEvent with
  | none => Except.error "invalid memory address or nil pointer dereference"
  | some ptr =>
    match p.heap[ptr]? with
    | none => Except.error "invalid memory address or nil pointer dereference"
    | some we =>
      Except.ok
        { heap := p.heap.set ptr (we.Commit p.sink now ctx []).1
          sink := (we.Commit p.sink now ctx []).2 }

/-- The handler returned by `HTTP2ServerWithLogging(wideEventName)(next)`, serving the
    request `r`.  The arguments `slogWith` and `dflt` are those of `log.FromContext`,
    `now` and `rnd` those of `log.New`, `endT` the clock reading of `Commit`.  The logger
    that `With("correlation_id", ...)` returns is not used by the source. -/
def HTTP2ServerWithLogging (slogWith : log.Logger → List log.GoAny → log.Logger)
    (dflt : log.Logger) (now : log.Time) (rnd : List (Fin 256)) (endT : log.Time)
    (wideEventName : String) (next : Handler) (r : Request) (p : Proc) :
    Except String Proc :=
  let ctx : log.Context := some r.ctx
  match GetHTTP2CorrelationID ctx with
  | Except.error e => Except.error e
  | Except.ok found =>
    let correlationID := if found = "" then "unknown" else found
    match log.FromContext slogWith dflt ctx [] with
    | Except.error e => Except.error e
    | Except.ok logger =>
      let _unused := slogWith logger
        [log.GoAny.str "correlation_id", log.GoAny.str correlationID,
         log.GoAny.str "method", log.GoAny.str r.Method,
         log.GoAny.str "path", log.GoAny.str r.Path]
      match log.EnsureWideEventFromContext p.heap dflt now rnd ctx wideEventName [] with
      | Except.error e => Except.error e
      | Except.ok (heap1, ctx1, wideEvent) =>
        match r.WithContext ctx1 with
        | Except.error e => Except.error e
        | Except.ok r1 =>
          commitAt (next r1 { heap := heap1, sink := p.sink }) wideEvent endT ctx1

/-- A request whose context carries the correlation token `req-42`. -/
def sampleRequest : Request :=
  { ctx := log.Ctx.withValue log.Ctx.background log.CtxKey.http2CorrelationIdKey
      (log.CtxValue.str "req-42")
    Method := "GET"
    Path := "/pay" }

/-- A handler that touches neither the events nor the sink. -/
def idleHandler : Handler := fun _ p => p

/-- A configuration with TLS enabled. -/
def sampleTLSConfig : HTTPServerConfig :=
  { ServerAddress := "0.0.0.0:9440", EnableTLS := true, TLSCertFile := "server.crt",
    TLSKeyFile := "server.key", ReadHeaderTimeoutSeconds := 5, ReadTimeoutSeconds := 10,
    WriteTimeoutSeconds := 10 }

/-- A key-pair loader that finds the files. -/
def sampleLoad : String → String → Except GoError tls.Certificate :=
  fun _ _ => Except.ok ⟨1⟩

end server


namespace log

/-- The lower-case form of an ASCII capital letter; every other rune is left as it is. -/
def lowerASCII (c : Char) : Char :=
  if 65 ≤ c.toNat ∧ c.toNat ≤ 90 then Char.ofNat (c.toNat + 32) else c

/-- Whether two texts are equal ignoring letter case: they agree rune by rune once
    every ASCII capital letter is replaced by its lower-case form. -/
def equalsIgnoringCase (s t : String) : Bool :=
  decide (s.data.map lowerASCII = t.data.map lowerASCII)

/-- Whether every rune of the text is an ASCII character. -/
def isASCII (s : String) : Bool :=
  s.data.all fun c => decide (c.toNat ≤ 127)

end log


namespace log

/-- The critical section of `Commit`, from `we.mu.Lock()` to `we.mu.Unlock()`: the event
    after it and the attributes copied into the local slice, `none` when the event was
    committed already and the call returns at once. -/
def WideEvent.Commit.locked (we : WideEvent) : WideEvent × Option (List Attr) :=
  if we.committed then (we, none)
  else
    let we1 : WideEvent := { we with committed := true }
    (we1, some ([] ++ we1.attrs))

/-- The part of `Commit` after `we.mu.Unlock()`, run on the copied attributes: it reads the
    clock, reads `start`, `level`, `message` and `logger` of the event as they are at that
    moment, and hands one record to the sink. -/
def WideEvent.Commit.emit (we : WideEvent) (sink : List Record) (attrs : List Attr)
    (now : Time) (ctx : Context) (extra : List Attr) : List Record :=
  let duration := now.Sub we.start
  let attrs1 := attrs ++ [slogTime "event_end" now, slogDuration "event_duration" duration]
  let attrs2 := if extra.length > 0 then attrs1 ++ extra else attrs1
  sink ++ [⟨we.logger, ctx, we.level, we.message, attrs2⟩]

/-- One event shared by concurrent calls: the event, the sink, and for each `Commit` call
    that has left its critical section with a copy and has not emitted yet, the number of
    the call and its copy. -/
structure Shared where
  we : WideEvent
  sink : List Record
  copies : List (Nat × List Attr)
deriving DecidableEq, Repr

/-- An atomic step of a concurrent execution.  The mutex lets one call at a time run the
    code between `Lock` and `Unlock`, so the critical section of a call is one step: the
    whole effect of `Add`, `SetLevel` and `SetMessage` (their checks before `Lock` read
    arguments only), and for the `Commit` call numbered `call` first its critical section
    and later, after steps of other calls, its emission. -/
inductive Atom where
  | add (attrs : List Attr)
  | setLevel (level : Level)
  | setMessage (msg : String)
  | commitLocked (call : Nat)
  | commitEmit (call : Nat) (now : Time) (ctx : Context) (extra : List Attr)
deriving DecidableEq, Repr

/-- The shared state after one atomic step.  The emission of a call that holds no copy
    (it returned from its critical section, or has not entered it) does nothing. -/
def Shared.step (s : Shared) : Atom → Shared
  | Atom.add attrs => { s with we := s.we.Add attrs }
  | Atom.setLevel level => { s with we := s.we.SetLevel level }
  | Atom.setMessage msg => { s with we := s.we.SetMessage msg }
  | Atom.commitLocked call =>
    match WideEvent.Commit.locked s.we with
    | (we1, none) => { s with we := we1 }
    | (we1, some attrs) => { s with we := we1, copies := s.copies ++ [(call, attrs)] }
  | Atom.commitEmit call now ctx extra =>
    match s.copies.lookup call with
    | none => s
    | some attrs =>
      { s with
        sink := WideEvent.Commit.emit s.we s.sink attrs now ctx extra
        copies := s.copies.filter fun p => p.1 != call }

/-- The shared state after an interleaving: the atomic steps of all calls in the order in
    which they happen. -/
def Shared.run (s : Shared) (sched : List Atom) : Shared :=
  sched.foldl Shared.step s

/-- The method call whose whole effect an atomic step is, if it is one. -/
def Atom.op? : Atom → Option Op
  | Atom.add attrs => some (Op.add attrs)
  | Atom.setLevel level => some (Op.setLevel level)
  | Atom.setMessage msg => some (Op.setMessage msg)
  | _ => none

/-- The `Add`, `SetLevel` and `SetMessage` calls among the steps, in order. -/
def opsOf (sched : List Atom) : List Op :=
  sched.filterMap Atom.op?

/-- The attributes passed to the `Add` calls among the steps, in order. -/
def addedAttrs (sched : List Atom) : List Attr :=
  (sched.filterMap fun a =>
    match a with
    | Atom.add attrs => some attrs
    | _ => none).flatten

/-- Whether a step is the critical section of a `Commit` call. -/
def Atom.isCommitLocked : Atom → Bool
  | Atom.commitLocked _ => true
  | _ => false

/-- Whether a step is the emission of the `Commit` call numbered `call`. -/
def Atom.isEmitOf (call : Nat) : Atom → Bool
  | Atom.commitEmit c _ _ _ => c == call
  | _ => false

/-- An interleaving of three callers: adds and a level before the first `Commit` enters
    its critical section, an `Add`, a `SetLevel` and a second `Commit` between that and
    the emission of the first, and an `Add` after it. -/
def sampleSchedule : List Atom :=
  [Atom.add [slogString "user" "u1"], Atom.setLevel LevelWarn,
   Atom.add [slogBool "paid" true], Atom.commitLocked 1,
   Atom.add [slogString "late" "x"], Atom.setLevel LevelError, Atom.commitLocked 2,
   Atom.commitEmit 2 ⟨160, some 1160⟩ Context.background [],
   Atom.commitEmit 1 ⟨150, some 1150⟩ Context.background [slogBool "final" true],
   Atom.add [slogString "later" "y"]]

end log


namespace log

/-- The three phases of a shared event whose sink held `sink0` at the start: not yet
    committed; committed with one call holding a copy and nothing emitted; committed with
    no copy held and one record emitted. -/
def Shared.phase (sink0 : List Record) (s : Shared) : Prop :=
  (s.we.committed = false ∧ s.copies = [] ∧ s.sink = sink0) ∨
  (s.we.committed = true ∧ (∃ call copy, s.copies = [(call, copy)]) ∧ s.sink = sink0) ∨
  (s.we.committed = true ∧ s.copies = [] ∧ ∃ rec, s.sink = sink0 ++ [rec])

end log


namespace lifecycle

variable {W : Type}

theorem Stop_loop_take (r : Runtime W) (n : Nat) (hn : n ≤ r.stoppers.length)
    (m : Machine W) :
    Runtime.Stop.loop r n m = some
      { world := runStoppers (r.stoppers.take n).reverse m.world
        calls := m.calls ++ stopCalls (r.stoppers.take n).reverse
        logged := m.logged } := by
  induction n generalizing m with
  | zero => simp [Runtime.Stop.loop, runStoppers, stopCalls]
  | succ i ih =>
    have hi : i < r.stoppers.length := hn
    have hget : r.stoppers[i]? = some r.stoppers[i] := List.getElem?_eq_getElem hi
    simp only [Runtime.Stop.loop, hget]
    rw [ih (Nat.le_of_lt hi)]
    have htake : r.stoppers.take (i + 1) = r.stoppers.take i ++ [r.stoppers[i]] := by
      rw [List.take_succ, hget]; rfl
    rw [htake]
    simp only [Stopper.call, runStoppers, stopCalls, List.reverse_append, List.reverse_cons,
      List.reverse_nil, List.nil_append, List.singleton_append, List.foldl_cons, List.map_cons,
      List.append_assoc]

end lifecycle

namespace lifecycle

variable {W : Type}

theorem Stop_eq (r : Runtime W) (m : Machine W) :
    r.Stop m = some (r,
      { world := runStoppers r.stoppers.reverse m.world
        calls := m.calls ++ stopCalls r.stoppers.reverse
        logged := m.logged }) := by
  unfold Runtime.Stop
  rw [Stop_loop_take r r.stoppers.length (Nat.le_refl _) m, List.take_length]
  rfl

theorem Start_loop_succeed (ts rest : List (Starter W)) (outs : List (Option (Stopper W)))
    (w w1 : W) (h : Succeed ts w outs w1) (r : Runtime W) (cs : List Call)
    (lg : List ErrorLine) :
    Runtime.Start.loop (ts ++ rest) r { world := w, calls := cs, logged := lg } =
      Runtime.Start.loop rest
        { starters := r.starters, stoppers := r.stoppers ++ outs.reduceOption }
        { world := w1, calls := cs ++ startCalls ts, logged := lg } := by
  induction h generalizing r cs with
  | nil w => simp [startCalls]
  | @cons t ts w w1 w2 o outs hb _ ih =>
    cases o with
    | none =>
      simp only [List.cons_append, Runtime.Start.loop, Starter.call, hb]
      show Runtime.Start.loop (ts ++ rest) _ _ = _
      rw [ih]
      simp [startCalls, List.reduceOption_cons_of_none]
    | some s =>
      simp only [List.cons_append, Runtime.Start.loop, Starter.call, hb]
      show Runtime.Start.loop (ts ++ rest) _ _ = _
      rw [ih]
      simp [startCalls, List.reduceOption_cons_of_some]

theorem NewRuntime_loop_succeed (ss : List (Setup W)) (outs : List (Option (Starter W)))
    (w w1 : W) (h : SetupsSucceed ss w outs w1) (r : Runtime W) (cs : List Call)
    (lg : List ErrorLine) :
    NewRuntime.loop ss r { world := w, calls := cs, logged := lg } =
      Outcome.returned
        { starters := r.starters ++ outs.reduceOption, stoppers := r.stoppers }
        { world := w1, calls := cs ++ setupCalls ss, logged := lg } := by
  induction h generalizing r cs with
  | nil w => simp [setupCalls, NewRuntime.loop]
  | @cons s ss w w1 w2 o outs hb _ ih =>
    cases o with
    | none =>
      simp only [NewRuntime.loop, Setup.call, hb]
      rw [ih]
      simp [setupCalls, List.reduceOption_cons_of_none]
    | some s =>
      simp only [NewRuntime.loop, Setup.call, hb]
      rw [ih]
      simp [setupCalls, List.reduceOption_cons_of_some]

theorem NewRuntime_loop_stoppers (ss : List (Setup W)) (r r1 : Runtime W) (m m1 : Machine W)
    (h : NewRuntime.loop ss r m = Outcome.returned r1 m1) : r1.stoppers = r.stoppers := by
  induction ss generalizing r m with
  | nil =>
    simp only [NewRuntime.loop, Outcome.returned.injEq] at h
    rw [← h.1]
  | cons s ss ih =>
    simp only [NewRuntime.loop] at h
    split at h
    · cases h
    · exact (ih _ _ h).trans rfl
    · exact (ih _ _ h).trans rfl

end lifecycle

namespace lifecycle

variable {W : Type}

/-- C1: for every runtime and every stopper list `[s1..sm]`, one call to `Stop` returns
    normally, invokes exactly `sm, ..., s1` in that order and nothing else, and leaves the
    runtime (so the stopper list) unchanged; a second call invokes all of them again in
    the same reverse order. -/
theorem Stop_invokes_all_in_reverse_each_call (r : Runtime W) (m : Machine W) :
    r.Stop m = some (r,
      { world := runStoppers r.stoppers.reverse m.world
        calls := m.calls ++ stopCalls r.stoppers.reverse
        logged := m.logged }) ∧
    ((r.Stop m).bind fun p => p.1.Stop p.2) = some (r,
      { world := runStoppers r.stoppers.reverse (runStoppers r.stoppers.reverse m.world)
        calls := m.calls ++ stopCalls r.stoppers.reverse ++ stopCalls r.stoppers.reverse
        logged := m.logged }) ∧
    (stopCalls r.stoppers.reverse).length = r.stoppers.length := by
  refine ⟨Stop_eq r m, ?_, by simp [stopCalls]⟩
  rw [Stop_eq r m, Option.some_bind, Stop_eq]

theorem Start_loop_stops_at_failure (r : Runtime W) (m : Machine W) (pre post : List (Starter W))
    (tk : Starter W) (outs : List (Option (Stopper W))) (w1 w2 : W)
    (sk : Option (Stopper W)) (e : GoError)
    (hs : r.starters = pre ++ tk :: post)
    (hpre : Succeed pre m.world outs w1)
    (hk : tk.body w1 = (w2, sk, some e)) :
    r.Start m =
      ({ starters := r.starters, stoppers := r.stoppers ++ outs.reduceOption },
       { world := w2, calls := m.calls ++ startCalls (pre ++ [tk]), logged := m.logged },
       some e) := by
  unfold Runtime.Start
  rw [hs]
  have h := Start_loop_succeed pre (tk :: post) outs m.world w1 hpre r m.calls m.logged
  rw [show ({ world := m.world, calls := m.calls, logged := m.logged } : Machine W) = m
    from rfl] at h
  rw [h]
  simp only [Runtime.Start.loop, Starter.call, hk, hs]
  simp [startCalls]

/-- C2: when the starters are `pre ++ tk :: post`, every starter of `pre` succeeds and
    `tk` returns the error `e`, `Start` invokes the starters of `pre` and then `tk`, once
    each in that order, invokes nothing else (no later starter, no stopper), returns
    exactly `e`, and has appended to the stopper list the non-nil stoppers returned by
    `pre`, in start order, and nothing for `tk`. -/
theorem Start_fails_at_kth (r : Runtime W) (m : Machine W) (pre post : List (Starter W))
    (tk : Starter W) (outs : List (Option (Stopper W))) (w1 w2 : W)
    (sk : Option (Stopper W)) (e : GoError)
    (hs : r.starters = pre ++ tk :: post)
    (hpre : Succeed pre m.world outs w1)
    (hk : tk.body w1 = (w2, sk, some e)) :
    r.Start m =
      ({ starters := r.starters, stoppers := r.stoppers ++ outs.reduceOption },
       { world := w2, calls := m.calls ++ startCalls (pre ++ [tk]), logged := m.logged },
       some e) :=
  Start_loop_stops_at_failure r m pre post tk outs w1 w2 sk e hs hpre hk

/-- C10: when every setup succeeds, `NewRuntime` invokes each setup once in the given
    order and nothing else (no starter), writes no error record, and returns a runtime
    whose starter list is the non-nil starters returned by the setups, in setup order,
    and whose stopper list is empty. -/
theorem NewRuntime_all_setups_succeed (setups : List (Setup W)) (m : Machine W)
    (outs : List (Option (Starter W))) (w1 : W)
    (h : SetupsSucceed setups m.world outs w1) :
    NewRuntime setups m =
      Outcome.returned
        { starters := outs.reduceOption, stoppers := [] }
        { world := w1, calls := m.calls ++ setupCalls setups, logged := m.logged } := by
  unfold NewRuntime
  have h1 := NewRuntime_loop_succeed setups outs m.world w1 h
    { starters := [], stoppers := [] } m.calls m.logged
  rw [show ({ world := m.world, calls := m.calls, logged := m.logged } : Machine W) = m
    from rfl] at h1
  rw [h1]
  simp

end lifecycle

namespace lifecycle

variable {W : Type}

/-- C3: on a runtime freshly returned by `NewRuntime`, `Start` followed by `Stop`, whether
    `Start` returned nil (`rest = []`) or failed at the starter after `pre`, makes `Stop`
    invoke exactly the non-nil stoppers returned by the starters that succeeded, once
    each, in the reverse of the order in which those starters ran, and no other stopper:
    `Start` leaves those stoppers as the stopper list, and `Stop` then runs their bodies in
    reverse order on the world `Start` left (`wEnd`), adds their calls in that order to
    the trace and nothing else, and leaves the runtime as it was. -/
theorem Start_then_Stop_unwinds_started (setups : List (Setup W)) (m0 : Machine W)
    (r : Runtime W) (m : Machine W) (pre rest : List (Starter W))
    (outs : List (Option (Stopper W))) (w1 wEnd : W) (err : Option GoError)
    (hnew : NewRuntime setups m0 = Outcome.returned r m)
    (hs : r.starters = pre ++ rest)
    (hpre : Succeed pre m.world outs w1)
    (hrest : (rest = [] ∧ wEnd = w1 ∧ err = none) ∨
      ∃ tk post sk e, rest = tk :: post ∧ tk.body w1 = (wEnd, sk, some e) ∧ err = some e) :
    r.Start m =
      ({ starters := r.starters, stoppers := outs.reduceOption },
       { world := wEnd, calls := m.calls ++ startCalls (pre ++ rest.take 1),
         logged := m.logged },
       err) ∧
    Runtime.Stop { starters := r.starters, stoppers := outs.reduceOption }
        { world := wEnd, calls := m.calls ++ startCalls (pre ++ rest.take 1),
          logged := m.logged } =
      some ({ starters := r.starters, stoppers := outs.reduceOption },
        { world := runStoppers outs.reduceOption.reverse wEnd,
          calls := m.calls ++ startCalls (pre ++ rest.take 1) ++
            stopCalls outs.reduceOption.reverse,
          logged := m.logged }) := by
  have hst : r.stoppers = [] := NewRuntime_loop_stoppers setups _ r m0 m hnew
  refine ⟨?_, Stop_eq _ _⟩
  rcases hrest with ⟨hnil, hw, he⟩ | ⟨tk, post, sk, e, hrest, hk, he⟩
  · subst hnil hw he
    have h := Start_loop_succeed pre [] outs m.world wEnd hpre r m.calls m.logged
    rw [show ({ world := m.world, calls := m.calls, logged := m.logged } : Machine W) = m
      from rfl] at h
    have hstart : r.Start m = Runtime.Start.loop (pre ++ []) r m := by
      unfold Runtime.Start; rw [hs]
    rw [hstart, h, hst]
    simp [Runtime.Start.loop]
  · subst hrest he
    have h := Start_loop_stops_at_failure r m pre post tk outs w1 wEnd sk e hs hpre hk
    rw [h, hst]
    simp

end lifecycle

namespace log

theorem Add_uncommitted (we : WideEvent) (attrs : List Attr) (h : we.committed = false) :
    we.Add attrs = { we with attrs := we.attrs ++ attrs } := by
  unfold WideEvent.Add
  by_cases h0 : attrs.length = 0
  · have : attrs = [] := List.length_eq_zero.mp h0
    subst this
    simp
  · simp [h0, h]

theorem Add_committed (we : WideEvent) (attrs : List Attr) (h : we.committed = true) :
    we.Add attrs = we := by
  unfold WideEvent.Add
  simp [h]

theorem AddKVs_committed (we : WideEvent) (kv : List GoAny) (h : we.committed = true) :
    we.AddKVs kv = we := by
  unfold WideEvent.AddKVs
  split
  · rfl
  · exact Add_committed we _ h

theorem SetLevel_committed (we : WideEvent) (level : Level) (h : we.committed = true) :
    we.SetLevel level = we := by
  simp [WideEvent.SetLevel, h]

theorem SetMessage_committed (we : WideEvent) (msg : String) (h : we.committed = true) :
    we.SetMessage msg = we := by
  simp [WideEvent.SetMessage, h]

theorem Commit_committed (we : WideEvent) (sink : List Record) (now : Time) (ctx : Context)
    (extra : List Attr) (h : we.committed = true) :
    we.Commit sink now ctx extra = (we, sink) := by
  simp [WideEvent.Commit, h]

theorem Commit_uncommitted (we : WideEvent) (sink : List Record) (now : Time) (ctx : Context)
    (extra : List Attr) (h : we.committed = false) :
    we.Commit sink now ctx extra =
      ({ we with committed := true },
       sink ++ [{ logger := we.logger, ctx := ctx, level := we.level, msg := we.message,
                  attrs := we.attrs ++
                    [slogTime "event_end" now, slogDuration "event_duration" (now.Sub we.start)]
                    ++ extra }]) := by
  unfold WideEvent.Commit
  by_cases h0 : extra.length > 0
  · simp [h, h0]
  · have : extra = [] := List.length_eq_zero.mp (Nat.eq_zero_of_not_pos h0)
    subst this
    simp [h]

theorem step_committed (s : WideEvent × List Record) (op : Op) (h : s.1.committed = true) :
    step s op = s := by
  cases op with
  | add attrs => simp [step, Add_committed _ _ h]
  | addKVs kv => simp [step, AddKVs_committed _ _ h]
  | setLevel level => simp [step, SetLevel_committed _ _ h]
  | setMessage msg => simp [step, SetMessage_committed _ _ h]
  | commit now ctx extra => simp [step, Commit_committed _ _ _ _ _ h]
  | commitError now ctx err extra =>
    cases err <;>
      simp [step, WideEvent.CommitError, Add_committed _ _ h, SetLevel_committed _ _ h,
        Commit_committed _ _ _ _ _ h]
  | cancel now ctx reason extra =>
    by_cases hr : reason = "" <;>
      simp [step, WideEvent.Cancel, Add_committed _ _ h, SetLevel_committed _ _ h,
        Commit_committed _ _ _ _ _ h, hr]

theorem run_committed (s : WideEvent × List Record) (ops : List Op)
    (h : s.1.committed = true) : run s ops = s := by
  induction ops with
  | nil => rfl
  | cons op ops ih =>
    show run (step s op) ops = s
    rw [step_committed s op h]
    exact ih

theorem run_append (s : WideEvent × List Record) (xs ys : List Op) :
    run s (xs ++ ys) = run (run s xs) ys := by
  simp [run, List.foldl_append]

theorem step_quiet (s : WideEvent × List Record) (op : Op) (h : op.isCommitting = false) :
    (step s op).2 = s.2 ∧ (step s op).1.committed = s.1.committed := by
  cases hc : s.1.committed with
  | true => rw [step_committed s op hc]; exact ⟨rfl, hc⟩
  | false =>
    cases op with
    | add attrs => simp [step, Add_uncommitted _ _ hc, hc]
    | addKVs kv =>
      simp only [step, WideEvent.AddKVs]
      split
      · simp [hc]
      · simp [Add_uncommitted _ _ hc, hc]
    | setLevel level => simp [step, WideEvent.SetLevel, hc]
    | setMessage msg =>
      by_cases hm : msg = "" <;> simp [step, WideEvent.SetMessage, hc, hm]
    | commit now ctx extra => simp [Op.isCommitting] at h
    | commitError now ctx err extra => simp [Op.isCommitting] at h
    | cancel now ctx reason extra => simp [Op.isCommitting] at h

theorem run_quiet (s : WideEvent × List Record) (ops : List Op)
    (h : ∀ op ∈ ops, op.isCommitting = false) :
    (run s ops).2 = s.2 ∧ (run s ops).1.committed = s.1.committed := by
  induction ops generalizing s with
  | nil => exact ⟨rfl, rfl⟩
  | cons op ops ih =>
    have h1 := step_quiet s op (h op (List.mem_cons_self _ _))
    have h2 := ih (step s op) (fun x hx => h x (List.mem_cons_of_mem _ hx))
    show (run (step s op) ops).2 = s.2 ∧ (run (step s op) ops).1.committed = s.1.committed
    exact ⟨h2.1.trans h1.1, h2.2.trans h1.2⟩

theorem SetLevel_uncommitted (we : WideEvent) (level : Level) (h : we.committed = false) :
    we.SetLevel level = { we with level := level } := by
  simp [WideEvent.SetLevel, h]

theorem CommitError_uncommitted (we : WideEvent) (sink : List Record) (now : Time)
    (ctx : Context) (err : Option GoError) (extra : List Attr) (h : we.committed = false) :
    we.CommitError sink now ctx err extra =
      ({ we with
          committed := true
          level := LevelError
          attrs := we.attrs ++ slogBool "error" true ::
            (match err with
              | some e => [slogString "error_message" e]
              | none => []) },
       sink ++ [{ logger := we.logger, ctx := ctx, level := LevelError, msg := we.message,
                  attrs := we.attrs ++ slogBool "error" true ::
                    (match err with
                      | some e => [slogString "error_message" e]
                      | none => []) ++
                    [slogTime "event_end" now, slogDuration "event_duration" (now.Sub we.start)]
                    ++ extra }]) := by
  cases err with
  | none =>
    simp [WideEvent.CommitError, Add_uncommitted, SetLevel_uncommitted, Commit_uncommitted, h]
  | some e =>
    simp [WideEvent.CommitError, Add_uncommitted, SetLevel_uncommitted, Commit_uncommitted, h]

theorem Cancel_uncommitted (we : WideEvent) (sink : List Record) (now : Time)
    (ctx : Context) (reason : String) (extra : List Attr) (h : we.committed = false) :
    we.Cancel sink now ctx reason extra =
      ({ we with
          committed := true
          level := LevelWarn
          attrs := we.attrs ++ slogBool "cancelled" true ::
            (if reason = "" then [] else [slogString "cancel_reason" reason]) },
       sink ++ [{ logger := we.logger, ctx := ctx, level := LevelWarn, msg := we.message,
                  attrs := we.attrs ++ slogBool "cancelled" true ::
                    (if reason = "" then [] else [slogString "cancel_reason" reason]) ++
                    [slogTime "event_end" now, slogDuration "event_duration" (now.Sub we.start)]
                    ++ extra }]) := by
  by_cases hr : reason = ""
  · simp only [WideEvent.Cancel, hr, ne_eq, not_true_eq_false, if_false, if_true]
    simp [Add_uncommitted, SetLevel_uncommitted, Commit_uncommitted, h]
  · simp only [WideEvent.Cancel, hr, ne_eq, not_false_eq_true, if_false, if_true]
    simp [Add_uncommitted, SetLevel_uncommitted, Commit_uncommitted, h]

theorem step_emits (s : WideEvent × List Record) (op : Op) (h : op.isCommitting = true)
    (hc : s.1.committed = false) :
    ∃ rec, (step s op).2 = s.2 ++ [rec] ∧ (step s op).1.committed = true := by
  cases op with
  | add attrs => simp [Op.isCommitting] at h
  | addKVs kv => simp [Op.isCommitting] at h
  | setLevel level => simp [Op.isCommitting] at h
  | setMessage msg => simp [Op.isCommitting] at h
  | commit now ctx extra =>
    rw [show step s (Op.commit now ctx extra) = _ from Commit_uncommitted _ _ _ _ _ hc]
    exact ⟨_, rfl, rfl⟩
  | commitError now ctx err extra =>
    rw [show step s (Op.commitError now ctx err extra) = _ from
      CommitError_uncommitted _ _ _ _ _ _ hc]
    exact ⟨_, rfl, rfl⟩
  | cancel now ctx reason extra =>
    rw [show step s (Op.cancel now ctx reason extra) = _ from
      Cancel_uncommitted _ _ _ _ _ _ hc]
    exact ⟨_, rfl, rfl⟩

theorem exists_first_committing (ops : List Op) (h : ∃ op ∈ ops, op.isCommitting = true) :
    ∃ pre c post, ops = pre ++ c :: post ∧ (∀ op ∈ pre, op.isCommitting = false) ∧
      c.isCommitting = true := by
  induction ops with
  | nil => simp at h
  | cons x xs ih =>
    cases hx : x.isCommitting with
    | true => exact ⟨[], x, xs, rfl, by simp, hx⟩
    | false =>
      obtain ⟨op, hop, hcm⟩ := h
      rcases List.mem_cons.mp hop with heq | hmem
      · subst heq; rw [hx] at hcm; cases hcm
      · obtain ⟨pre, c, post, he, hp, hcc⟩ := ih ⟨op, hmem, hcm⟩
        refine ⟨x :: pre, c, post, by rw [he]; rfl, ?_, hcc⟩
        intro y hy
        rcases List.mem_cons.mp hy with h1 | h1
        · rw [h1]; exact hx
        · exact hp y h1

theorem New_committed (dflt : Logger) (now : Time) (rnd : List (Fin 256)) (name : String)
    (initial : List Attr) : (New dflt now rnd name initial).committed = false := by
  unfold New
  simp only []
  split <;> rfl

end log

namespace log

theorem pairs_from_step (kv : List GoAny) (i : Nat) (h : i + 1 < kv.length) :
    (List.range ((kv.length - i) / 2)).filterMap (fun t => pairAt kv (i + 2 * t)) =
      (pairAt kv i).toList ++
        (List.range ((kv.length - (i + 2)) / 2)).filterMap
          (fun t => pairAt kv (i + 2 + 2 * t)) := by
  have hlen : (kv.length - i) / 2 = (kv.length - (i + 2)) / 2 + 1 := by omega
  rw [hlen, List.range_succ_eq_map, List.filterMap_cons, List.filterMap_map]
  have hfun : ((fun t => pairAt kv (i + 2 * t)) ∘ Nat.succ) =
      (fun t => pairAt kv (i + 2 + 2 * t)) := by
    funext t
    show pairAt kv (i + 2 * (t + 1)) = pairAt kv (i + 2 + 2 * t)
    congr 1
    omega
  rw [hfun]
  cases hp : pairAt kv (i + 2 * 0) with
  | none =>
    have : pairAt kv i = none := hp
    simp [this]
  | some a =>
    have : pairAt kv i = some a := hp
    simp [this]

theorem AddKVs_loop_eq (kv : List GoAny) (n : Nat) :
    ∀ (i : Nat) (attrs : List Attr), kv.length - i = n →
      WideEvent.AddKVs.loop kv i attrs =
        attrs ++ (List.range ((kv.length - i) / 2)).filterMap
          (fun t => pairAt kv (i + 2 * t)) := by
  induction n using Nat.strong_induction_on with
  | _ n ih =>
    intro i attrs hn
    rw [WideEvent.AddKVs.loop]
    by_cases h : i + 1 < kv.length
    · have hi : i < kv.length := by omega
      have ih2 := fun attrs1 => ih (kv.length - (i + 2)) (by omega) (i + 2) attrs1 rfl
      rw [dif_pos h, pairs_from_step kv i h]
      have hget : kv[i]? = some kv[i] := List.getElem?_eq_getElem hi
      have hget1 : kv[i + 1]? = some kv[i + 1] := List.getElem?_eq_getElem h
      cases hk : kv[i] with
      | str k =>
        by_cases hempty : k = ""
        · simp [ih2, pairAt, hget, hk, hempty]
        · simp [ih2, pairAt, hget, hk, hempty, hget1]
      | nil => simp [ih2, pairAt, hget, hk]
      | int v => simp [ih2, pairAt, hget, hk]
      | bool v => simp [ih2, pairAt, hget, hk]
      | other v => simp [ih2, pairAt, hget, hk]
    · rw [dif_neg h]
      have hz : (kv.length - i) / 2 = 0 := by omega
      simp [hz]

theorem AddKVs_loop_zero (kv : List GoAny) :
    WideEvent.AddKVs.loop kv 0 [] = pairAttrs kv := by
  rw [AddKVs_loop_eq kv kv.length 0 [] rfl]
  simp [pairAttrs]

end log

namespace log

theorem New_eq (dflt : Logger) (now : Time) (rnd : List (Fin 256)) (name : String)
    (initial : List Attr) :
    New dflt now rnd name initial =
      { logger := dflt, name := name, start := now, level := LevelInfo, message := name,
        committed := false,
        attrs := [slogString "event" name, slogString "event_id" (newEventID rnd),
                  slogTime "event_start" now] ++ initial } := by
  unfold New
  by_cases h0 : initial.length > 0
  · simp [h0]
  · have : initial = [] := List.length_eq_zero.mp (Nat.eq_zero_of_not_pos h0)
    subst this
    simp

theorem foldl_Add_uncommitted (adds : List (List Attr)) (we : WideEvent)
    (h : we.committed = false) :
    adds.foldl WideEvent.Add we = { we with attrs := we.attrs ++ adds.flatten } := by
  induction adds generalizing we with
  | nil => simp
  | cons a adds ih =>
    rw [List.foldl_cons, Add_uncommitted we a h]
    have hstep := ih { we with attrs := we.attrs ++ a } h
    rw [hstep]
    simp

/-- When both values carry a monotonic reading and the difference of the readings fits a
    `Duration`, `Sub` is that difference. -/
theorem Time.Sub_exact (t u : Time) (a b : Int) (ha : t.mono = some a) (hb : u.mono = some b)
    (hlo : minDuration ≤ a - b) (hhi : a - b ≤ maxDuration) : t.Sub u = a - b := by
  unfold Time.Sub saturateDuration
  rw [ha, hb]
  simp only []
  rw [if_neg (not_lt.mpr hhi), if_neg (not_lt.mpr hlo)]

/-- C4: on an event created by `New`, a sequence of calls that contains a committing call
    hands exactly one record to the sink: nothing is emitted before the first committing
    call `c`, `c` emits the record, and at every later point the sink still holds just
    that record and a further `Commit` changes neither the event nor the sink. -/
theorem exactly_one_record_per_event (dflt : Logger) (now : Time) (rnd : List (Fin 256))
    (name : String) (initial : List Attr) (sink : List Record) (ops : List Op)
    (h : ∃ op ∈ ops, op.isCommitting = true) :
    ∃ pre c post rec,
      ops = pre ++ c :: post ∧ (∀ op ∈ pre, op.isCommitting = false) ∧
      c.isCommitting = true ∧
      (run (New dflt now rnd name initial, sink) pre).2 = sink ∧
      (run (New dflt now rnd name initial, sink) (pre ++ [c])).2 = sink ++ [rec] ∧
      (run (New dflt now rnd name initial, sink) ops).2 = sink ++ [rec] ∧
      ∀ (k : Nat) (now1 : Time) (ctx : Context) (extra : List Attr),
        (run (New dflt now rnd name initial, sink) (pre ++ c :: post.take k)).2 =
          sink ++ [rec] ∧
        WideEvent.Commit
          (run (New dflt now rnd name initial, sink) (pre ++ c :: post.take k)).1
          (run (New dflt now rnd name initial, sink) (pre ++ c :: post.take k)).2
          now1 ctx extra =
          run (New dflt now rnd name initial, sink) (pre ++ c :: post.take k) := by
  obtain ⟨pre, c, post, hops, hpre, hc⟩ := exists_first_committing ops h
  have hq := run_quiet (New dflt now rnd name initial, sink) pre hpre
  have hun : (run (New dflt now rnd name initial, sink) pre).1.committed = false :=
    hq.2.trans (New_committed dflt now rnd name initial)
  obtain ⟨rec, hrec, hcm⟩ := step_emits (run (New dflt now rnd name initial, sink) pre) c hc hun
  have hafter : ∀ rest : List Op,
      run (New dflt now rnd name initial, sink) (pre ++ c :: rest) =
        step (run (New dflt now rnd name initial, sink) pre) c := by
    intro rest
    rw [run_append]
    exact run_committed _ rest hcm
  have hsink : (step (run (New dflt now rnd name initial, sink) pre) c).2 = sink ++ [rec] := by
    rw [hrec, hq.1]
  refine ⟨pre, c, post, rec, hops, hpre, hc, hq.1, ?_, ?_, ?_⟩
  · rw [hafter []]; exact hsink
  · rw [hops, hafter post]; exact hsink
  · intro k now1 ctx extra
    rw [hafter (post.take k)]
    exact ⟨hsink, Commit_committed _ _ _ _ _ hcm⟩

/-- C5 (amended): the record emitted by `New(name, initial...)`, `Add(a1)`, ...,
    `Add(an)`, `Commit(ctx, x...)` is the only one emitted, at the default level and with
    the name as message, and carries exactly the attributes
    `[event, event_id, event_start] ++ initial ++ a1 ++ ... ++ an ++
    [event_end, event_duration] ++ x`.  The attributes `event_start` and `event_end` hold
    the wall-clock readings; `event_duration` is `end.Sub(start)`, which for two readings
    of `time.Now()` is the difference of their monotonic readings whenever that fits a
    `Duration`. -/
theorem commit_record_carries_all_added (dflt : Logger) (now : Time) (rnd : List (Fin 256))
    (name : String) (initial : List Attr) (adds : List (List Attr)) (sink : List Record)
    (endT : Time) (ctx : Context) (x : List Attr) :
    ((adds.foldl WideEvent.Add (New dflt now rnd name initial)).Commit sink endT ctx x).2 =
      sink ++ [{ logger := dflt, ctx := ctx, level := LevelInfo, msg := name,
                 attrs := [slogString "event" name, slogString "event_id" (newEventID rnd),
                           ⟨"event_start", Value.time now.wall⟩] ++ initial ++
                          adds.flatten ++
                          [⟨"event_end", Value.time endT.wall⟩,
                           ⟨"event_duration", Value.duration (endT.Sub now)⟩] ++ x }] ∧
    (∀ a b : Int, endT.mono = some a → now.mono = some b →
      minDuration ≤ a - b → a - b ≤ maxDuration → endT.Sub now = a - b) := by
  refine ⟨?_, fun a b ha hb hlo hhi => Time.Sub_exact endT now a b ha hb hlo hhi⟩
  rw [foldl_Add_uncommitted adds _ (New_committed dflt now rnd name initial), New_eq,
    Commit_uncommitted _ _ _ _ _ rfl]
  rfl

/-- Counterexample for C5: the clock readings are 8664 ns apart on the wall clock and
    8644 ns apart on the monotonic clock; the record carries `event_start` and
    `event_end` 8664 ns apart and an `event_duration` of 8644 ns. -/
theorem event_duration_differs_from_logged_difference :
    ((New ⟨1⟩ ⟨1000000, some 500⟩ sampleBytes "checkout" []).Commit []
        ⟨1008664, some 9144⟩ Context.background []).2 =
      [{ logger := ⟨1⟩, ctx := Context.background, level := 0, msg := "checkout",
         attrs := [slogString "event" "checkout",
                   slogString "event_id" "abababababababababababababababab",
                   ⟨"event_start", Value.time 1000000⟩,
                   ⟨"event_end", Value.time 1008664⟩,
                   ⟨"event_duration", Value.duration 8644⟩] }] ∧
    (8644 : Int) ≠ 1008664 - 1000000 :=
  ⟨by decide, by decide⟩

/-- C6: on a committed event every method call, and every sequence of calls, leaves the
    event (so `committed`, `attrs`, `level`, `message`) and the sink unchanged; in
    particular `Add`, `AddKVs`, `SetLevel` and `SetMessage` return the event as it was. -/
theorem committed_event_is_frozen (we : WideEvent) (sink : List Record)
    (h : we.committed = true) :
    (∀ op, step (we, sink) op = (we, sink)) ∧
    (∀ ops, run (we, sink) ops = (we, sink)) ∧
    (∀ attrs, we.Add attrs = we) ∧
    (∀ kv, we.AddKVs kv = we) ∧
    (∀ level, we.SetLevel level = we) ∧
    (∀ msg, we.SetMessage msg = we) :=
  ⟨fun op => step_committed (we, sink) op h, fun ops => run_committed (we, sink) ops h,
   fun attrs => Add_committed we attrs h, fun kv => AddKVs_committed we kv h,
   fun level => SetLevel_committed we level h, fun msg => SetMessage_committed we msg h⟩

/-- C7: on an uncommitted event `AddKVs(kv...)` returns and appends exactly the attributes
    of the well-formed pairs of `kv`, in order; `AddKVs("a", 1, "b")` appends only `a=1`. -/
theorem AddKVs_appends_wellformed_pairs (we : WideEvent) (kv : List GoAny)
    (h : we.committed = false) :
    we.AddKVs kv = { we with attrs := we.attrs ++ pairAttrs kv } ∧
    we.AddKVs [GoAny.str "a", GoAny.int 1, GoAny.str "b"] =
      { we with attrs := we.attrs ++ [⟨"a", Value.int64 1⟩] } := by
  have key : ∀ kv1 : List GoAny,
      we.AddKVs kv1 = { we with attrs := we.attrs ++ pairAttrs kv1 } := by
    intro kv1
    unfold WideEvent.AddKVs
    by_cases h0 : kv1.length = 0
    · have : kv1 = [] := List.length_eq_zero.mp h0
      subst this
      simp [pairAttrs]
    · rw [if_neg h0, AddKVs_loop_zero, Add_uncommitted _ _ h]
  refine ⟨key kv, ?_⟩
  rw [key]
  rfl

end log

namespace lifecycle

/-- Witness for C2: four starters, the third fails after two successes. -/
theorem Start_fails_at_kth_witness :
    ((Runtime.Start { starters := sampleStarters, stoppers := [] } sampleMachine).2.1.calls =
        [Call.start 1, Call.start 2, Call.start 3]) ∧
    ((Runtime.Start { starters := sampleStarters, stoppers := [] } sampleMachine).2.2 =
        some "boom") ∧
    ((Runtime.Start { starters := sampleStarters, stoppers := [] }
        sampleMachine).1.stoppers.map (fun s => s.label) = [1]) := by
  have h := Start_fails_at_kth { starters := sampleStarters, stoppers := [] } sampleMachine
    [sampleStarter 1, sampleStarterNoStopper 2] [sampleStarter 4] (sampleStarterFailing 3)
    [some (sampleStopper 1), none] 2 3 (some (sampleStopper 3)) "boom" rfl
    (Succeed.cons rfl (Succeed.cons rfl (Succeed.nil 2))) rfl
  rw [h]
  exact ⟨rfl, rfl, rfl⟩

/-- Witness for C10: four setups that all succeed, one of them without a starter. -/
theorem NewRuntime_all_setups_succeed_witness :
    NewRuntime sampleSetups sampleMachine =
      Outcome.returned
        { starters := [sampleStarter 1, sampleStarterNoStopper 2, sampleStarterFailing 3],
          stoppers := [] }
        { world := 400,
          calls := [Call.setup 11, Call.setup 12, Call.setup 13, Call.setup 14],
          logged := [] } :=
  NewRuntime_all_setups_succeed sampleSetups sampleMachine
    [some (sampleStarter 1), none, some (sampleStarterNoStopper 2),
     some (sampleStarterFailing 3)] 400
    (SetupsSucceed.cons rfl (SetupsSucceed.cons rfl (SetupsSucceed.cons rfl
      (SetupsSucceed.cons rfl (SetupsSucceed.nil 400)))))

/-- Witness for C3: the runtime built from `sampleSetups`, whose third starter fails
    after two successes; `Stop` runs the one stopper that was returned, on the world 403
    the failed `Start` left. -/
theorem Start_then_Stop_unwinds_started_witness :
    Runtime.Start
        { starters := [sampleStarter 1, sampleStarterNoStopper 2, sampleStarterFailing 3],
          stoppers := [] }
        { world := 400,
          calls := [Call.setup 11, Call.setup 12, Call.setup 13, Call.setup 14],
          logged := [] } =
      ({ starters := [sampleStarter 1, sampleStarterNoStopper 2, sampleStarterFailing 3],
         stoppers := [sampleStopper 1] },
       { world := 403,
         calls := [Call.setup 11, Call.setup 12, Call.setup 13, Call.setup 14,
                   Call.start 1, Call.start 2, Call.start 3],
         logged := [] },
       some "boom") ∧
    Runtime.Stop
        { starters := [sampleStarter 1, sampleStarterNoStopper 2, sampleStarterFailing 3],
          stoppers := [sampleStopper 1] }
        { world := 403,
          calls := [Call.setup 11, Call.setup 12, Call.setup 13, Call.setup 14,
                    Call.start 1, Call.start 2, Call.start 3],
          logged := [] } =
      some ({ starters := [sampleStarter 1, sampleStarterNoStopper 2,
                sampleStarterFailing 3],
              stoppers := [sampleStopper 1] },
        { world := 4031,
          calls := [Call.setup 11, Call.setup 12, Call.setup 13, Call.setup 14,
                    Call.start 1, Call.start 2, Call.start 3, Call.stop 1],
          logged := [] }) :=
  Start_then_Stop_unwinds_started sampleSetups sampleMachine
    { starters := [sampleStarter 1, sampleStarterNoStopper 2, sampleStarterFailing 3],
      stoppers := [] }
    { world := 400,
      calls := [Call.setup 11, Call.setup 12, Call.setup 13, Call.setup 14],
      logged := [] }
    [sampleStarter 1, sampleStarterNoStopper 2] [sampleStarterFailing 3]
    [some (sampleStopper 1), none] 402 403 (some "boom") rfl rfl
    (Succeed.cons rfl (Succeed.cons rfl (Succeed.nil 402)))
    (Or.inr ⟨sampleStarterFailing 3, [], some (sampleStopper 3), "boom", rfl, rfl, rfl⟩)

end lifecycle

namespace log

/-- C8 (amended): on an uncommitted event `CommitError(ctx, err, extra...)` emits exactly
    one record, at error severity whatever level was set before, whose attributes are the
    accumulated ones, then `error=true`, then `error_message=err.Error()` when `err` is
    non-nil, then `event_end`, `event_duration` and `extra`.  With a nil `err` no
    `error_message` attribute is added: the record has one exactly when the accumulated or
    extra attributes already have one. -/
theorem CommitError_emits_error_record (we : WideEvent) (sink : List Record) (now : Time)
    (ctx : Context) (err : Option GoError) (extra : List Attr)
    (h : we.committed = false) :
    ∃ rec,
      (we.CommitError sink now ctx err extra).2 = sink ++ [rec] ∧
      rec.level = LevelError ∧ rec.msg = we.message ∧ rec.logger = we.logger ∧
      rec.attrs = we.attrs ++ slogBool "error" true ::
        (match err with
          | some e => [slogString "error_message" e]
          | none => []) ++
        [slogTime "event_end" now, slogDuration "event_duration" (now.Sub we.start)] ++
        extra ∧
      (err = none →
        ((∃ a ∈ rec.attrs, a.key = "error_message") ↔
          ∃ a ∈ we.attrs ++ extra, a.key = "error_message")) := by
  rw [CommitError_uncommitted we sink now ctx err extra h]
  refine ⟨_, rfl, rfl, rfl, rfl, rfl, ?_⟩
  intro hnil
  subst hnil
  simp only [List.mem_append, List.mem_cons, List.append_nil, List.mem_singleton,
    List.not_mem_nil, or_false]
  constructor
  · rintro ⟨a, ((ha | ha) | ha | ha) | ha, hk⟩
    · exact ⟨a, Or.inl ha, hk⟩
    · subst ha; simp [slogBool] at hk
    · subst ha; simp [slogTime] at hk
    · subst ha; simp [slogDuration] at hk
    · exact ⟨a, Or.inr ha, hk⟩
  · rintro ⟨a, ha | ha, hk⟩
    · exact ⟨a, Or.inl (Or.inl (Or.inl ha)), hk⟩
    · exact ⟨a, Or.inr ha, hk⟩

/-- C9 (amended): on an uncommitted event `Cancel(ctx, reason, extra...)` emits exactly one
    record, at warning severity, whose attributes are the accumulated ones, then
    `cancelled=true`, then `cancel_reason=reason` when `reason` is not empty, then
    `event_end`, `event_duration` and `extra`.  The record contains `cancel_reason=reason`
    exactly when `reason` is not empty or the accumulated or extra attributes already
    contain that attribute. -/
theorem Cancel_emits_warning_record (we : WideEvent) (sink : List Record) (now : Time)
    (ctx : Context) (reason : String) (extra : List Attr) (h : we.committed = false) :
    ∃ rec,
      (we.Cancel sink now ctx reason extra).2 = sink ++ [rec] ∧
      rec.level = LevelWarn ∧ rec.msg = we.message ∧ rec.logger = we.logger ∧
      rec.attrs = we.attrs ++ slogBool "cancelled" true ::
        (if reason = "" then [] else [slogString "cancel_reason" reason]) ++
        [slogTime "event_end" now, slogDuration "event_duration" (now.Sub we.start)] ++
        extra ∧
      slogBool "cancelled" true ∈ rec.attrs ∧
      (slogString "cancel_reason" reason ∈ rec.attrs ↔
        (reason ≠ "" ∨ slogString "cancel_reason" reason ∈ we.attrs ++ extra)) := by
  rw [Cancel_uncommitted we sink now ctx reason extra h]
  refine ⟨_, rfl, rfl, rfl, rfl, rfl, by simp, ?_⟩
  by_cases hr : reason = ""
  · simp [hr, slogString, slogBool, slogTime, slogDuration]
  · simp [hr]

/-- Counterexample for C8: an uncommitted event that already carries an attribute under
    the key `error_message`; after `CommitError` with a nil error the one record emitted
    has an `error_message` attribute. -/
theorem CommitError_nil_record_has_error_message :
    staleErrorEvent.committed = false ∧
    ∃ rec, (staleErrorEvent.CommitError [] ⟨150, some 1150⟩ Context.background none []).2 = [rec] ∧
      ∃ a ∈ rec.attrs, a.key = "error_message" :=
  ⟨rfl, _, rfl, slogString "error_message" "stale", by decide, rfl⟩

/-- Counterexample for C9: an uncommitted event that already carries `cancel_reason=""`;
    after `Cancel` with the empty reason the one record emitted contains
    `cancel_reason=reason` although `reason` is empty. -/
theorem Cancel_empty_reason_record_has_cancel_reason :
    staleCancelEvent.committed = false ∧
    ∃ rec, (staleCancelEvent.Cancel [] ⟨150, some 1150⟩ Context.background "" []).2 = [rec] ∧
      slogString "cancel_reason" "" ∈ rec.attrs :=
  ⟨rfl, _, rfl, by decide⟩

/-- Witness for C4: six calls on a fresh event, three of them committing, leave one
    record in the sink. -/
theorem exactly_one_record_per_event_witness :
    (run (New ⟨1⟩ ⟨100, some 1100⟩ sampleBytes "checkout" [], []) sampleOps).2.length = 1 := by
  obtain ⟨pre, c, post, rec, _, _, _, _, _, hrun, _⟩ :=
    exactly_one_record_per_event ⟨1⟩ ⟨100, some 1100⟩ sampleBytes "checkout" [] [] sampleOps
      ⟨Op.commit ⟨150, some 1150⟩ Context.background [], by simp [sampleOps], rfl⟩
  rw [hrun]
  rfl

/-- Witness for C5: an initial attribute, two `Add` calls (one repeating a key) and an
    extra attribute; the monotonic readings are 50 ns apart and the duration is 50. -/
theorem commit_record_carries_all_added_witness :
    (([[slogString "user" "u1"], [slogBool "paid" true, slogString "user" "u2"]].foldl
        WideEvent.Add
        (New ⟨1⟩ ⟨100, some 1100⟩ sampleBytes "checkout" [slogString "route" "/pay"])).Commit
        [] ⟨150, some 1150⟩ Context.background [slogBool "final" true]).2 =
      [{ logger := ⟨1⟩, ctx := Context.background, level := 0, msg := "checkout",
         attrs := [slogString "event" "checkout",
                   slogString "event_id" "abababababababababababababababab",
                   slogTime "event_start" ⟨100, some 1100⟩, slogString "route" "/pay",
                   slogString "user" "u1", slogBool "paid" true, slogString "user" "u2",
                   slogTime "event_end" ⟨150, some 1150⟩, slogDuration "event_duration" 50,
                   slogBool "final" true] }] ∧
    Time.Sub ⟨150, some 1150⟩ ⟨100, some 1100⟩ = 1150 - 1100 :=
  ⟨(commit_record_carries_all_added ⟨1⟩ ⟨100, some 1100⟩ sampleBytes "checkout"
      [slogString "route" "/pay"]
      [[slogString "user" "u1"], [slogBool "paid" true, slogString "user" "u2"]]
      [] ⟨150, some 1150⟩ Context.background [slogBool "final" true]).1.trans (by decide),
   (commit_record_carries_all_added ⟨1⟩ ⟨100, some 1100⟩ sampleBytes "checkout"
      [slogString "route" "/pay"]
      [[slogString "user" "u1"], [slogBool "paid" true, slogString "user" "u2"]]
      [] ⟨150, some 1150⟩ Context.background [slogBool "final" true]).2 1150 1100 rfl rfl
      (by decide) (by decide)⟩

/-- Witness for C6: calls on the committed `sampleCommitted` change nothing. -/
theorem committed_event_is_frozen_witness :
    sampleCommitted.committed = true ∧
    sampleCommitted.Add [slogString "late" "x"] = sampleCommitted ∧
    sampleCommitted.SetLevel LevelError = sampleCommitted ∧
    step (sampleCommitted, []) (Op.commit ⟨170, some 1170⟩ Context.background []) =
      (sampleCommitted, []) :=
  ⟨rfl, (committed_event_is_frozen sampleCommitted [] rfl).2.2.1 _,
   (committed_event_is_frozen sampleCommitted [] rfl).2.2.2.2.1 _,
   (committed_event_is_frozen sampleCommitted [] rfl).1 _⟩

/-- Witness for C7: a non-string key, an empty key and a trailing element are dropped. -/
theorem AddKVs_appends_wellformed_pairs_witness :
    sampleEvent.committed = false ∧
    sampleEvent.AddKVs
        [GoAny.str "a", GoAny.int 1, GoAny.other 0, GoAny.str "v", GoAny.str "",
         GoAny.int 2, GoAny.str "k", GoAny.bool true, GoAny.str "b"] =
      { sampleEvent with
        attrs := sampleEvent.attrs ++ [⟨"a", Value.int64 1⟩, ⟨"k", Value.bool true⟩] } := by
  refine ⟨rfl, ?_⟩
  rw [(AddKVs_appends_wellformed_pairs sampleEvent _ rfl).1]
  rfl

/-- Witness for C8: `CommitError` with a non-nil error on a fresh event at debug level. -/
theorem CommitError_emits_error_record_witness :
    ∃ rec,
      ((sampleEvent.SetLevel LevelDebug).CommitError [] ⟨150, some 1150⟩ Context.background
        (some "boom") []).2 = [] ++ [rec] ∧
      rec.level = LevelError ∧ rec.msg = "checkout" ∧ rec.logger = ⟨1⟩ ∧
      rec.attrs = sampleEvent.attrs ++
        [slogBool "error" true, slogString "error_message" "boom",
         slogTime "event_end" ⟨150, some 1150⟩, slogDuration "event_duration" 50] := by
  obtain ⟨rec, h1, h2, h3, h4, h5, _⟩ :=
    CommitError_emits_error_record (sampleEvent.SetLevel LevelDebug) [] ⟨150, some 1150⟩
      Context.background (some "boom") [] rfl
  exact ⟨rec, h1, h2, h3, h4, h5.trans rfl⟩

/-- Witness for C9: `Cancel` with a reason on a fresh event. -/
theorem Cancel_emits_warning_record_witness :
    ∃ rec,
      (sampleEvent.Cancel [] ⟨150, some 1150⟩ Context.background "timeout" []).2 = [] ++ [rec] ∧
      rec.level = LevelWarn ∧
      rec.attrs = sampleEvent.attrs ++
        [slogBool "cancelled" true, slogString "cancel_reason" "timeout",
         slogTime "event_end" ⟨150, some 1150⟩, slogDuration "event_duration" 50] := by
  obtain ⟨rec, h1, h2, _, _, h5, _⟩ :=
    Cancel_emits_warning_record sampleEvent [] ⟨150, some 1150⟩ Context.background "timeout" [] rfl
  exact ⟨rec, h1, h2, h5.trans rfl⟩

end log

namespace lifecycle

variable {W : Type}

theorem NewRuntime_loop_append (ss rest : List (Setup W)) (outs : List (Option (Starter W)))
    (w w1 : W) (h : SetupsSucceed ss w outs w1) (r : Runtime W) (cs : List Call)
    (lg : List ErrorLine) :
    NewRuntime.loop (ss ++ rest) r { world := w, calls := cs, logged := lg } =
      NewRuntime.loop rest
        { starters := r.starters ++ outs.reduceOption, stoppers := r.stoppers }
        { world := w1, calls := cs ++ setupCalls ss, logged := lg } := by
  induction h generalizing r cs with
  | nil w => simp [setupCalls]
  | @cons s ss w w1 w2 o outs hb _ ih =>
    cases o with
    | none =>
      simp only [List.cons_append, NewRuntime.loop, Setup.call, hb]
      show NewRuntime.loop (ss ++ rest) _ _ = _
      rw [ih]
      simp [setupCalls, List.reduceOption_cons_of_none]
    | some s =>
      simp only [List.cons_append, NewRuntime.loop, Setup.call, hb]
      show NewRuntime.loop (ss ++ rest) _ _ = _
      rw [ih]
      simp [setupCalls, List.reduceOption_cons_of_some]

/-- C11: when the setups are `pre ++ sk :: post`, every setup of `pre` succeeds and `sk`
    returns the error `e`, `NewRuntime` invokes the setups of `pre` and then `sk`, once
    each in that order, and nothing else (no later setup, no starter), writes one error
    record naming `e`, and ends the process with exit status 1; no runtime is returned. -/
theorem NewRuntime_exits_at_first_failure (setups : List (Setup W)) (m : Machine W)
    (pre post : List (Setup W)) (sk : Setup W) (outs : List (Option (Starter W)))
    (w1 w2 : W) (st : Option (Starter W)) (e : GoError)
    (hs : setups = pre ++ sk :: post)
    (hpre : SetupsSucceed pre m.world outs w1)
    (hk : sk.body w1 = (w2, st, some e)) :
    NewRuntime setups m =
      Outcome.exited 1
        { world := w2, calls := m.calls ++ setupCalls (pre ++ [sk]),
          logged := m.logged ++ [⟨"failed to set up component", "error", e⟩] } ∧
    ∀ (r : Runtime W) (m1 : Machine W), NewRuntime setups m ≠ Outcome.returned r m1 := by
  have hrun : NewRuntime setups m =
      Outcome.exited 1
        { world := w2, calls := m.calls ++ setupCalls (pre ++ [sk]),
          logged := m.logged ++ [⟨"failed to set up component", "error", e⟩] } := by
    unfold NewRuntime
    rw [hs]
    have h := NewRuntime_loop_append pre (sk :: post) outs m.world w1 hpre
      { starters := [], stoppers := [] } m.calls m.logged
    rw [show ({ world := m.world, calls := m.calls, logged := m.logged } : Machine W) = m
      from rfl] at h
    rw [h]
    simp only [NewRuntime.loop, Setup.call, hk]
    simp [setupCalls]
  refine ⟨hrun, ?_⟩
  intro r m1 hret
  rw [hrun] at hret
  cases hret

/-- Witness for C11: the third of four setups fails; the fourth is never invoked. -/
theorem NewRuntime_exits_at_first_failure_witness :
    NewRuntime
        [sampleSetup 11 (sampleStarter 1), sampleSetupNoStarter 12, sampleSetupFailing 13,
         sampleSetup 14 (sampleStarter 4)] sampleMachine =
      Outcome.exited 1
        { world := 300, calls := [Call.setup 11, Call.setup 12, Call.setup 13],
          logged := [⟨"failed to set up component", "error", "no config"⟩] } :=
  (NewRuntime_exits_at_first_failure
    [sampleSetup 11 (sampleStarter 1), sampleSetupNoStarter 12, sampleSetupFailing 13,
     sampleSetup 14 (sampleStarter 4)] sampleMachine
    [sampleSetup 11 (sampleStarter 1), sampleSetupNoStarter 12]
    [sampleSetup 14 (sampleStarter 4)] (sampleSetupFailing 13)
    [some (sampleStarter 1), none] 200 300 (some (sampleStarter 13)) "no config" rfl
    (SetupsSucceed.cons rfl (SetupsSucceed.cons rfl (SetupsSucceed.nil 200))) rfl).1

end lifecycle

namespace lifecycle

variable {W : Type}

theorem Start_loop_bound (ts : List (Starter W)) (r : Runtime W) (m : Machine W) :
    (Runtime.Start.loop ts r m).1.starters = r.starters ∧
    (Runtime.Start.loop ts r m).1.stoppers.length ≤ r.stoppers.length + ts.length := by
  induction ts generalizing r m with
  | nil => simp [Runtime.Start.loop]
  | cons t ts ih =>
    simp only [Runtime.Start.loop]
    split
    · simp
    · next m1 stopper _ =>
      have h := ih { r with stoppers := r.stoppers ++ [stopper] } m1
      refine ⟨h.1, ?_⟩
      have h2 : (Runtime.Start.loop ts { r with stoppers := r.stoppers ++ [stopper] }
          m1).1.stoppers.length ≤ (r.stoppers ++ [stopper]).length + ts.length := h.2
      rw [List.length_append, List.length_singleton] at h2
      rw [List.length_cons]
      omega
    · next m1 _ =>
      have h := ih r m1
      refine ⟨h.1, ?_⟩
      have h2 := h.2
      simp only [List.length_cons]
      omega

theorem Start_loop_nil_succeed (ts : List (Starter W)) (r : Runtime W) (m : Machine W)
    (h : (Runtime.Start.loop ts r m).2.2 = none) :
    ∃ outs w1, Succeed ts m.world outs w1 := by
  induction ts generalizing r m with
  | nil => exact ⟨[], m.world, Succeed.nil _⟩
  | cons t ts ih =>
    simp only [Runtime.Start.loop] at h
    split at h
    · simp at h
    · next m1 stopper heq =>
      obtain ⟨outs, w1, hs⟩ := ih _ _ h
      simp only [Starter.call, Prod.mk.injEq] at heq
      obtain ⟨hm, ho, he⟩ := heq
      subst hm
      exact ⟨some stopper :: outs, w1, Succeed.cons (Prod.ext rfl (Prod.ext ho he)) hs⟩
    · next m1 heq =>
      obtain ⟨outs, w1, hs⟩ := ih _ _ h
      simp only [Starter.call, Prod.mk.injEq] at heq
      obtain ⟨hm, ho, he⟩ := heq
      subst hm
      exact ⟨none :: outs, w1, Succeed.cons (Prod.ext rfl (Prod.ext ho he)) hs⟩

theorem Succeed_counts (ts : List (Starter W)) (w w1 : W)
    (outs : List (Option (Stopper W))) (h : Succeed ts w outs w1) :
    outs.reduceOption.length + outs.countP (fun o => o.isNone) = ts.length := by
  induction h with
  | nil w => simp
  | @cons t ts w w1 w2 o outs _ _ ih =>
    cases o with
    | none =>
      rw [List.reduceOption_cons_of_none, List.countP_cons_of_pos _ _ (by simp)]
      simp only [List.length_cons]
      omega
    | some s =>
      rw [List.reduceOption_cons_of_some, List.countP_cons_of_neg _ _ (by simp)]
      simp only [List.length_cons]
      omega

end lifecycle

namespace lifecycle

variable {W : Type}

/-- C12 (amended): for a runtime returned by `NewRuntime`, before `Start`, after each
    iteration of the loop of the first call to `Start` (the state after `k` iterations is
    the result of the loop on the first `k` starters) and when that call has returned,
    `len(stoppers) <= len(starters)`; and when that call returns nil, `len(stoppers)` is
    `len(starters)` minus the number of starters that returned no stopper. -/
theorem stoppers_bounded_through_first_Start (setups : List (Setup W)) (m0 : Machine W)
    (r : Runtime W) (m : Machine W)
    (hnew : NewRuntime setups m0 = Outcome.returned r m) :
    r.stoppers.length ≤ r.starters.length ∧
    (∀ k, (Runtime.Start.loop (r.starters.take k) r m).1.stoppers.length ≤
      r.starters.length) ∧
    (r.Start m).1.starters = r.starters ∧
    (r.Start m).1.stoppers.length ≤ r.starters.length ∧
    ((r.Start m).2.2 = none →
      ∃ outs w1, Succeed r.starters m.world outs w1 ∧
        (r.Start m).1.stoppers.length =
          r.starters.length - outs.countP (fun o => o.isNone)) := by
  have hst : r.stoppers = [] := NewRuntime_loop_stoppers setups _ r m0 m hnew
  refine ⟨by simp [hst], ?_, (Start_loop_bound r.starters r m).1, ?_, ?_⟩
  · intro k
    have h := (Start_loop_bound (r.starters.take k) r m).2
    rw [hst, List.length_nil, Nat.zero_add] at h
    exact h.trans (by rw [List.length_take]; exact Nat.min_le_right _ _)
  · have h := (Start_loop_bound r.starters r m).2
    rw [hst, List.length_nil, Nat.zero_add] at h
    exact h
  · intro hnil
    obtain ⟨outs, w1, hs⟩ := Start_loop_nil_succeed r.starters r m hnil
    refine ⟨outs, w1, hs, ?_⟩
    have hrun := Start_loop_succeed r.starters [] outs m.world w1 hs r m.calls m.logged
    rw [show ({ world := m.world, calls := m.calls, logged := m.logged } : Machine W) = m
      from rfl, List.append_nil] at hrun
    have hcount := Succeed_counts r.starters m.world w1 outs hs
    unfold Runtime.Start
    rw [hrun, hst]
    simp only [Runtime.Start.loop, List.nil_append]
    omega

/-- Counterexample for C12: the runtime built from one setup whose starter returns a
    stopper; two calls to `Start` both return nil and leave two stoppers for one starter. -/
theorem second_Start_outgrows_starters :
    NewRuntime [sampleSetup 11 (sampleStarter 1)] sampleMachine =
      Outcome.returned sampleBuilt { world := 100, calls := [Call.setup 11], logged := [] } ∧
    (sampleBuilt.Start { world := 100, calls := [Call.setup 11], logged := [] }).2.2 = none ∧
    (Runtime.Start
      (sampleBuilt.Start { world := 100, calls := [Call.setup 11], logged := [] }).1
      (sampleBuilt.Start { world := 100, calls := [Call.setup 11], logged := [] }).2.1).2.2 =
        none ∧
    (Runtime.Start
      (sampleBuilt.Start { world := 100, calls := [Call.setup 11], logged := [] }).1
      (sampleBuilt.Start { world := 100, calls := [Call.setup 11], logged := [] }).2.1
      ).1.stoppers.length = 2 ∧
    (Runtime.Start
      (sampleBuilt.Start { world := 100, calls := [Call.setup 11], logged := [] }).1
      (sampleBuilt.Start { world := 100, calls := [Call.setup 11], logged := [] }).2.1
      ).1.starters.length = 1 :=
  ⟨rfl, rfl, rfl, rfl, rfl⟩

/-- Witness for C12: the runtime built from `sampleSetups`, whose third starter fails. -/
theorem stoppers_bounded_through_first_Start_witness :
    (Runtime.Start
      { starters := [sampleStarter 1, sampleStarterNoStopper 2, sampleStarterFailing 3],
        stoppers := [] }
      { world := 400,
        calls := [Call.setup 11, Call.setup 12, Call.setup 13, Call.setup 14],
        logged := [] }).1.stoppers.length ≤ 3 :=
  (stoppers_bounded_through_first_Start sampleSetups sampleMachine
    { starters := [sampleStarter 1, sampleStarterNoStopper 2, sampleStarterFailing 3],
      stoppers := [] }
    { world := 400,
      calls := [Call.setup 11, Call.setup 12, Call.setup 13, Call.setup 14],
      logged := [] } rfl).2.2.2.1

end lifecycle

namespace log

theorem WideEventFromContext_nil : WideEventFromContext none = Except.ok (none, false) := by
  simp [WideEventFromContext]

theorem WideEventFromContext_some (c : Ctx) :
    WideEventFromContext (some c) =
      Except.ok
        (match c.Value CtxKey.wideEventKey with
          | some (CtxValue.wideEvent we) => (we, true)
          | _ => (none, false)) := by
  unfold WideEventFromContext
  rw [if_neg (by simp)]
  simp only [Context.Value]
  cases h : c.Value CtxKey.wideEventKey with
  | none => rfl
  | some v => cases v <;> rfl

theorem Value_of_not_carried (c : Ctx) (h : c.carriesWideEvent = false) :
    c.Value CtxKey.wideEventKey = none := by
  induction c with
  | background => rfl
  | withValue parent key val ih =>
    simp only [Ctx.carriesWideEvent, Bool.or_eq_false_iff, beq_eq_false_iff_ne, ne_eq] at h
    simp only [Ctx.Value, if_neg h.1]
    exact ih h.2

theorem WithContext_eq (we : Option Nat) (ctx : Context) :
    WideEvent.WithContext we ctx =
      Except.ok (some (Ctx.withValue (ctx.getD Ctx.background) CtxKey.wideEventKey
        (CtxValue.wideEvent we))) := by
  cases ctx with
  | none => rfl
  | some c => rfl

theorem WideEventFromContext_bound (c : Ctx) (we : Option Nat) :
    WideEventFromContext (some (Ctx.withValue c CtxKey.wideEventKey (CtxValue.wideEvent we))) =
      Except.ok (we, true) := by
  rw [WideEventFromContext_some]
  simp [Ctx.Value]

/-- C14: for every context `ctx` (nil, or carrying other bindings, among them another
    aggregator) and every event address `we`, `we.WithContext(ctx)` returns a context on
    which `WideEventFromContext` yields `(we, true)`; and on nil and on every context
    whose chain has no binding under the aggregator key `WideEventFromContext` yields
    `(nil, false)`. -/
theorem WithContext_binds_and_shadows (ctx : Context) (we : Option Nat) :
    WideEvent.WithContext we ctx =
      Except.ok (some (Ctx.withValue (ctx.getD Ctx.background) CtxKey.wideEventKey
        (CtxValue.wideEvent we))) ∧
    WideEventFromContext (some (Ctx.withValue (ctx.getD Ctx.background)
      CtxKey.wideEventKey (CtxValue.wideEvent we))) = Except.ok (we, true) ∧
    WideEventFromContext none = Except.ok (none, false) ∧
    (∀ c : Ctx, c.carriesWideEvent = false →
      WideEventFromContext (some c) = Except.ok (none, false)) := by
  refine ⟨WithContext_eq we ctx, WideEventFromContext_bound _ we,
    WideEventFromContext_nil, ?_⟩
  intro c hc
  rw [WideEventFromContext_some, Value_of_not_carried c hc]

/-- Witness for C14: binding address 7 on a context that already carries address 3
    shadows it; a context with only foreign bindings yields `(nil, false)`. -/
theorem WithContext_binds_and_shadows_witness :
    (WideEvent.WithContext (some 7)
        (some (Ctx.withValue Ctx.background CtxKey.wideEventKey
          (CtxValue.wideEvent (some 3))))).bind WideEventFromContext =
      Except.ok (some 7, true) ∧
    WideEventFromContext
        (some (Ctx.withValue Ctx.background (CtxKey.foreign 0) (CtxValue.foreign 1))) =
      Except.ok (none, false) := by
  have h := WithContext_binds_and_shadows
    (some (Ctx.withValue Ctx.background CtxKey.wideEventKey (CtxValue.wideEvent (some 3))))
    (some 7)
  refine ⟨?_, h.2.2.2 _ rfl⟩
  rw [h.1]
  exact h.2.1

/-- C13: `WideEventFromContext` always returns; when it yields a non-nil event `we`,
    `EnsureWideEventFromContext` returns the same context and `we` and allocates nothing;
    otherwise it allocates one event, equal to `New(name, initial...)`, at a fresh address
    and returns that address with a context on which `WideEventFromContext` yields that
    address and `true`. -/
theorem Ensure_gets_or_creates (heap : Heap) (dflt : Logger) (now : Time)
    (rnd : List (Fin 256)) (ctx : Context) (name : String) (initial : List Attr) :
    (∃ res, WideEventFromContext ctx = Except.ok res) ∧
    (∀ we ok, WideEventFromContext ctx = Except.ok (some we, ok) →
      EnsureWideEventFromContext heap dflt now rnd ctx name initial =
        Except.ok (heap, ctx, some we)) ∧
    (∀ ok, WideEventFromContext ctx = Except.ok (none, ok) →
      ∃ ctx1,
        EnsureWideEventFromContext heap dflt now rnd ctx name initial =
          Except.ok (heap ++ [New dflt now rnd name initial], ctx1, some heap.length) ∧
        heap[heap.length]? = none ∧
        (heap ++ [New dflt now rnd name initial])[heap.length]? =
          some (New dflt now rnd name initial) ∧
        WideEventFromContext ctx1 = Except.ok (some heap.length, true)) := by
  have hres : ∃ res, WideEventFromContext ctx = Except.ok res := by
    cases ctx with
    | none => exact ⟨_, WideEventFromContext_nil⟩
    | some c => exact ⟨_, WideEventFromContext_some c⟩
  have hok : ∀ we ok, WideEventFromContext ctx = Except.ok (some we, ok) → ok = true := by
    intro we ok h
    cases ctx with
    | none => rw [WideEventFromContext_nil] at h; cases h
    | some c =>
      rw [WideEventFromContext_some] at h
      split at h
      · cases h; rfl
      · cases h
  refine ⟨hres, ?_, ?_⟩
  · intro we ok h
    have := hok we ok h
    subst this
    simp only [EnsureWideEventFromContext, h]
  · intro ok h
    refine ⟨some (Ctx.withValue (ctx.getD Ctx.background) CtxKey.wideEventKey
      (CtxValue.wideEvent (some heap.length))), ?_, by simp, by simp,
      WideEventFromContext_bound _ _⟩
    simp only [EnsureWideEventFromContext, h, WithContext_eq]

/-- Witness for C13: on a context that carries address 3 nothing is allocated; on the
    nil context an event is allocated at address 2 of a heap of two. -/
theorem Ensure_gets_or_creates_witness :
    EnsureWideEventFromContext [sampleEvent, sampleCommitted] ⟨1⟩ ⟨100, some 1100⟩ sampleBytes
        (some (Ctx.withValue Ctx.background CtxKey.wideEventKey (CtxValue.wideEvent (some 3))))
        "request" [] =
      Except.ok ([sampleEvent, sampleCommitted],
        some (Ctx.withValue Ctx.background CtxKey.wideEventKey (CtxValue.wideEvent (some 3))),
        some 3) ∧
    ∃ ctx1,
      EnsureWideEventFromContext [sampleEvent, sampleCommitted] ⟨1⟩ ⟨100, some 1100⟩ sampleBytes none
          "request" [] =
        Except.ok ([sampleEvent, sampleCommitted] ++ [New ⟨1⟩ ⟨100, some 1100⟩ sampleBytes "request" []],
          ctx1, some 2) ∧
      WideEventFromContext ctx1 = Except.ok (some 2, true) := by
  refine ⟨(Ensure_gets_or_creates [sampleEvent, sampleCommitted] ⟨1⟩ ⟨100, some 1100⟩ sampleBytes
    (some (Ctx.withValue Ctx.background CtxKey.wideEventKey (CtxValue.wideEvent (some 3))))
    "request" []).2.1 3 true rfl, ?_⟩
  obtain ⟨ctx1, h1, _, _, h4⟩ :=
    (Ensure_gets_or_creates [sampleEvent, sampleCommitted] ⟨1⟩ ⟨100, some 1100⟩ sampleBytes none
      "request" []).2.2 false rfl
  exact ⟨ctx1, h1, h4⟩

end log

namespace log

theorem getLast_getD_cons {α : Type} (a d : α) (l : List α) :
    (a :: l).getLast?.getD d = l.getLast?.getD a := by
  rw [List.getLast?_cons]
  rfl

theorem run_level_message (ops : List Op) (we : WideEvent) (sink : List Record)
    (hun : we.committed = false) (hq : ∀ op ∈ ops, op.isCommitting = false) :
    (run (we, sink) ops).1.level = (lastLevel ops).getD we.level ∧
    (run (we, sink) ops).1.message = (lastMessage ops).getD we.message := by
  induction ops generalizing we sink with
  | nil => exact ⟨rfl, rfl⟩
  | cons op ops ih =>
    have hop := hq op (List.mem_cons_self _ _)
    have hrest : ∀ x ∈ ops, x.isCommitting = false :=
      fun x hx => hq x (List.mem_cons_of_mem _ hx)
    have hstep := step_quiet (we, sink) op hop
    have hun1 : (step (we, sink) op).1.committed = false := hstep.2.trans hun
    have h := ih (step (we, sink) op).1 (step (we, sink) op).2 hun1 hrest
    have hrun : run (we, sink) (op :: ops) =
        run ((step (we, sink) op).1, (step (we, sink) op).2) ops := rfl
    rw [hrun, h.1, h.2]
    cases op with
    | add attrs =>
      simp only [step, Add_uncommitted _ _ hun, lastLevel, lastMessage, List.filterMap_cons]
      exact ⟨trivial, trivial⟩
    | addKVs kv =>
      have hk : (we.AddKVs kv).level = we.level ∧ (we.AddKVs kv).message = we.message := by
        unfold WideEvent.AddKVs
        split
        · exact ⟨rfl, rfl⟩
        · rw [Add_uncommitted _ _ hun]; exact ⟨rfl, rfl⟩
      simp only [step, lastLevel, lastMessage, List.filterMap_cons, hk.1, hk.2]
      exact ⟨trivial, trivial⟩
    | setLevel level =>
      simp only [step, SetLevel_uncommitted _ _ hun, lastLevel, lastMessage,
        List.filterMap_cons]
      all_goals (refine ⟨?_, ?_⟩ <;> first | trivial | rfl | exact (getLast_getD_cons _ _ _).symm)
    | setMessage msg =>
      by_cases hm : msg = ""
      · simp only [step, WideEvent.SetMessage, hm, if_true, lastLevel, lastMessage,
          List.filterMap_cons]
        exact ⟨trivial, trivial⟩
      · simp only [step, WideEvent.SetMessage, hm, hun, if_false, lastLevel, lastMessage,
          List.filterMap_cons]
        all_goals (refine ⟨?_, ?_⟩ <;> first | trivial | rfl | exact (getLast_getD_cons _ _ _).symm)
    | commit now ctx extra => simp [Op.isCommitting] at hop
    | commitError now ctx err extra => simp [Op.isCommitting] at hop
    | cancel now ctx reason extra => simp [Op.isCommitting] at hop

/-- C15: on an event created by `New(name, ...)`, after any calls that do not commit
    (`SetLevel` and `SetMessage` in any number and order, also mixed with `Add`), `Commit`
    emits one record, at the level of the last `SetLevel` call (informational if there was
    none) and with the text of the last `SetMessage` call whose text is not empty (`name`
    if there was none); `SetMessage("")` returns the event unchanged. -/
theorem commit_uses_last_level_and_message (dflt : Logger) (now : Time)
    (rnd : List (Fin 256)) (name : String) (initial : List Attr) (ops : List Op)
    (sink : List Record) (endT : Time) (ctx : Context) (extra : List Attr)
    (hq : ∀ op ∈ ops, op.isCommitting = false) :
    (∃ rec,
      (WideEvent.Commit (run (New dflt now rnd name initial, sink) ops).1
        (run (New dflt now rnd name initial, sink) ops).2 endT ctx extra).2 = sink ++ [rec] ∧
      rec.level = (lastLevel ops).getD LevelInfo ∧
      rec.msg = (lastMessage ops).getD name) ∧
    ∀ we : WideEvent, we.SetMessage "" = we := by
  have hnew := New_committed dflt now rnd name initial
  have hquiet := run_quiet (New dflt now rnd name initial, sink) ops hq
  have hlm := run_level_message ops (New dflt now rnd name initial) sink hnew hq
  have hun : (run (New dflt now rnd name initial, sink) ops).1.committed = false :=
    hquiet.2.trans hnew
  refine ⟨?_, fun we => by simp [WideEvent.SetMessage]⟩
  rw [Commit_uncommitted _ _ _ _ _ hun, hquiet.1]
  refine ⟨_, rfl, ?_, ?_⟩
  · show (run (New dflt now rnd name initial, sink) ops).1.level = _
    rw [hlm.1, New_eq]
  · show (run (New dflt now rnd name initial, sink) ops).1.message = _
    rw [hlm.2, New_eq]

/-- Witness for C15: of three levels the last one set is used, and the empty message
    does not replace the message set before it. -/
theorem commit_uses_last_level_and_message_witness :
    ∃ rec,
      (WideEvent.Commit (run (New ⟨1⟩ ⟨100, some 1100⟩ sampleBytes "checkout" [], []) sampleSetters).1
        (run (New ⟨1⟩ ⟨100, some 1100⟩ sampleBytes "checkout" [], []) sampleSetters).2
        ⟨150, some 1150⟩ Context.background []).2 = [] ++ [rec] ∧
      rec.level = LevelDebug ∧ rec.msg = "paid" := by
  obtain ⟨rec, h1, h2, h3⟩ :=
    (commit_uses_last_level_and_message ⟨1⟩ ⟨100, some 1100⟩ sampleBytes "checkout" [] sampleSetters []
      ⟨150, some 1150⟩ Context.background [] (by decide)).1
  exact ⟨rec, h1, h2.trans rfl, h3.trans (by decide)⟩

end log

namespace log

end log

namespace log

theorem FromContext_nonempty_panics (slogWith : Logger → List GoAny → Logger)
    (dflt : Logger) (ctx : Context) (attrs : List Attr) (h : attrs ≠ []) :
    ∃ p, FromContext slogWith dflt ctx attrs = Except.error p := by
  have hlen : attrs.length > 0 := List.length_pos.mpr h
  cases ctx with
  | none => exact ⟨_, rfl⟩
  | some c =>
    simp only [FromContext, Context.Value, if_pos hlen, assertSliceOfAny]
    exact ⟨_, rfl⟩

/-- C20 (amended): on every non-nil context `FromContext(ctx, attrs...)` returns a logger
    (the one bound in the context, else the default one) exactly when `attrs` is empty; on
    every context a non-empty `attrs` makes the type assertion to `[]any` fail, so the
    call panics; on the nil context the call panics whatever `attrs` is. -/
theorem FromContext_returns_iff_no_attrs (slogWith : Logger → List GoAny → Logger)
    (dflt : Logger) (c : Ctx) (attrs : List Attr) :
    ((∃ l, FromContext slogWith dflt (some c) attrs = Except.ok l) ↔ attrs = []) ∧
    FromContext slogWith dflt (some c) [] =
      Except.ok (match c.Value CtxKey.loggerKey with
        | some (CtxValue.logger l) => l
        | _ => dflt) ∧
    (∀ (ctx : Context) (attrs1 : List Attr), attrs1 ≠ [] →
      ∃ p, FromContext slogWith dflt ctx attrs1 = Except.error p) ∧
    ∀ attrs1 : List Attr, ∃ p, FromContext slogWith dflt none attrs1 = Except.error p := by
  have hempty : FromContext slogWith dflt (some c) [] =
      Except.ok (match c.Value CtxKey.loggerKey with
        | some (CtxValue.logger l) => l
        | _ => dflt) := by
    simp [FromContext, Context.Value]
  refine ⟨⟨?_, ?_⟩, hempty, fun ctx attrs1 h => FromContext_nonempty_panics _ _ ctx attrs1 h,
    fun attrs1 => ⟨_, rfl⟩⟩
  · rintro ⟨l, hl⟩
    by_contra hne
    obtain ⟨p, hp⟩ := FromContext_nonempty_panics slogWith dflt (some c) attrs hne
    rw [hp] at hl
    cases hl
  · intro h
    subst h
    exact ⟨_, hempty⟩

/-- Counterexample for C20: on the nil context `FromContext` panics although `attrs` is
    empty. -/
theorem FromContext_nil_context_panics :
    FromContext sampleWith ⟨1⟩ none [] =
      Except.error "invalid memory address or nil pointer dereference" :=
  rfl

/-- Witness for C20: with one attribute the call panics on a context that carries a
    logger; without attributes it returns that logger. -/
theorem FromContext_returns_iff_no_attrs_witness :
    FromContext sampleWith ⟨1⟩
        (some (Ctx.withValue Ctx.background CtxKey.loggerKey (CtxValue.logger ⟨5⟩))) [] =
      Except.ok ⟨5⟩ ∧
    ∃ p, FromContext sampleWith ⟨1⟩
        (some (Ctx.withValue Ctx.background CtxKey.loggerKey (CtxValue.logger ⟨5⟩)))
        [slogString "user" "u1"] = Except.error p :=
  ⟨(FromContext_returns_iff_no_attrs sampleWith ⟨1⟩
      (Ctx.withValue Ctx.background CtxKey.loggerKey (CtxValue.logger ⟨5⟩)) []).2.1,
   (FromContext_returns_iff_no_attrs sampleWith ⟨1⟩
      (Ctx.withValue Ctx.background CtxKey.loggerKey (CtxValue.logger ⟨5⟩)) []).2.2.1 _ _
      (by decide)⟩

end log

namespace server

variable {H : Type}

/-- C19 (as the code behaves): with TLS enabled `NewHTTP2ServerWithTLS` returns
    `ErrTLSDisabledForTLSOnlyServer` without reading the key pair, and so does
    `NewHTTP2Server`; with TLS disabled `NewHTTP2ServerWithTLS` goes on to load the key
    pair and returns that error only if the loader does. -/
theorem NewHTTP2ServerWithTLS_error_when_TLS_enabled
    (loadX509KeyPair : String → String → Except GoError tls.Certificate)
    (h2cNewHandler : H → H) (ctx : log.Context) (cfg : HTTPServerConfig) (mux : H)
    (middlewares : List (H → H)) :
    NewHTTP2ServerWithTLS loadX509KeyPair ctx { cfg with EnableTLS := true } mux middlewares =
      Except.error ErrTLSDisabledForTLSOnlyServer ∧
    NewHTTP2Server loadX509KeyPair h2cNewHandler ctx { cfg with EnableTLS := true } mux
        middlewares =
      Except.error ErrTLSDisabledForTLSOnlyServer ∧
    NewHTTP2ServerWithTLS loadX509KeyPair ctx { cfg with EnableTLS := false } mux
        middlewares =
      (match loadX509KeyPair cfg.TLSCertFile cfg.TLSKeyFile with
        | Except.error err => Except.error err
        | Except.ok cert =>
          Except.ok
            { NewHTTPServer ctx { cfg with EnableTLS := false } mux middlewares with
              TLSConfig :=
                some { Certificates := [cert], MinVersion := tls.VersionTLS12 } }) := by
  refine ⟨by simp [NewHTTP2ServerWithTLS], by simp [NewHTTP2Server, NewHTTP2ServerWithTLS], ?_⟩
  simp only [NewHTTP2ServerWithTLS]
  rfl

end server

namespace server

theorem GetHTTP2CorrelationID_returns (c : log.Ctx) :
    ∃ s, GetHTTP2CorrelationID (some c) = Except.ok s := by
  simp only [GetHTTP2CorrelationID, log.Context.Value]
  cases c.Value log.CtxKey.http2CorrelationIdKey with
  | none => exact ⟨_, rfl⟩
  | some v => cases v <;> exact ⟨_, rfl⟩

theorem FromContext_no_attrs (slogWith : log.Logger → List log.GoAny → log.Logger)
    (dflt : log.Logger) (c : log.Ctx) :
    ∃ l, log.FromContext slogWith dflt (some c) [] = Except.ok l := by
  simp [log.FromContext, log.Context.Value]

theorem Ensure_creates (heap : log.Heap) (dflt : log.Logger) (now : log.Time)
    (rnd : List (Fin 256)) (c : log.Ctx) (name : String)
    (h : c.carriesWideEvent = false) :
    log.EnsureWideEventFromContext heap dflt now rnd (some c) name [] =
      Except.ok (heap ++ [log.New dflt now rnd name []],
        some (log.Ctx.withValue c log.CtxKey.wideEventKey
          (log.CtxValue.wideEvent (some heap.length))),
        some heap.length) := by
  have hfrom : log.WideEventFromContext (some c) = Except.ok (none, false) := by
    rw [log.WideEventFromContext_some, log.Value_of_not_carried c h]
  simp only [log.EnsureWideEventFromContext, hfrom, log.WithContext_eq]
  rfl

theorem commitAt_last (heap : log.Heap) (sink : List log.Record) (we : log.WideEvent)
    (now : log.Time) (ctx : log.Context) :
    commitAt { heap := heap ++ [we], sink := sink } (some heap.length) now ctx =
      Except.ok
        { heap := heap ++ [(we.Commit sink now ctx []).1]
          sink := (we.Commit sink now ctx []).2 } := by
  simp [commitAt]

end server

namespace server

/-- C17 (as the code behaves): for every request whose context carries no aggregator yet,
    whatever correlation token it carries, the logging middleware around a handler that
    adds nothing emits one record whose attributes are `event`, `event_id`, `event_start`,
    `event_end` and `event_duration`: the token is attached to no field of the aggregator
    and the record has no `correlation_id` attribute. -/
theorem logging_middleware_record_lacks_correlation_id
    (slogWith : log.Logger → List log.GoAny → log.Logger) (dflt : log.Logger)
    (now : log.Time) (rnd : List (Fin 256)) (endT : log.Time) (wideEventName : String)
    (r : Request) (p : Proc) (h : r.ctx.carriesWideEvent = false) :
    HTTP2ServerWithLogging slogWith dflt now rnd endT wideEventName idleHandler r p =
      Except.ok
        { heap := p.heap ++ [{ log.New dflt now rnd wideEventName [] with committed := true }]
          sink := p.sink ++
            [{ logger := dflt
               ctx := some (log.Ctx.withValue r.ctx log.CtxKey.wideEventKey
                 (log.CtxValue.wideEvent (some p.heap.length)))
               level := log.LevelInfo
               msg := wideEventName
               attrs := [log.slogString "event" wideEventName,
                         log.slogString "event_id" (log.newEventID rnd),
                         log.slogTime "event_start" now,
                         log.slogTime "event_end" endT,
                         log.slogDuration "event_duration" (endT.Sub now)] }] } ∧
    ∀ a ∈ [log.slogString "event" wideEventName,
           log.slogString "event_id" (log.newEventID rnd),
           log.slogTime "event_start" now, log.slogTime "event_end" endT,
           log.slogDuration "event_duration" (endT.Sub now)],
      a.key ≠ "correlation_id" := by
  constructor
  · obtain ⟨s, hs⟩ := GetHTTP2CorrelationID_returns r.ctx
    obtain ⟨l, hl⟩ := FromContext_no_attrs slogWith dflt r.ctx
    simp only [HTTP2ServerWithLogging, hs, hl, Ensure_creates p.heap dflt now rnd r.ctx
      wideEventName h, Request.WithContext, idleHandler, commitAt_last]
    rw [log.Commit_uncommitted _ _ _ _ _ (log.New_committed dflt now rnd wideEventName []),
      log.New_eq]
    rfl
  · intro a ha
    simp only [List.mem_cons, List.mem_singleton, List.not_mem_nil, or_false] at ha
    rcases ha with ha | ha | ha | ha | ha <;> subst ha <;>
      simp [log.slogString, log.slogTime, log.slogDuration]

/-- Witness for C17: the request `sampleRequest` carries the correlation token `req-42`;
    the one record emitted for it has five attributes, none under `correlation_id`. -/
theorem logging_middleware_record_lacks_correlation_id_witness :
    GetHTTP2CorrelationID (some sampleRequest.ctx) = Except.ok "req-42" ∧
    ∃ heap rec,
      HTTP2ServerWithLogging log.sampleWith ⟨1⟩ ⟨100, some 1100⟩ log.sampleBytes ⟨150, some 1150⟩ "http_request"
          idleHandler sampleRequest { heap := [], sink := [] } =
        Except.ok { heap := heap, sink := [rec] } ∧
      rec.attrs.map (fun a => a.key) =
        ["event", "event_id", "event_start", "event_end", "event_duration"] ∧
      ∀ a ∈ rec.attrs, a.key ≠ "correlation_id" :=
  ⟨rfl, _, _,
   (logging_middleware_record_lacks_correlation_id log.sampleWith ⟨1⟩ ⟨100, some 1100⟩ log.sampleBytes
      ⟨150, some 1150⟩ "http_request" sampleRequest { heap := [], sink := [] } rfl).1,
   rfl,
   (logging_middleware_record_lacks_correlation_id log.sampleWith ⟨1⟩ ⟨100, some 1100⟩ log.sampleBytes
      ⟨150, some 1150⟩ "http_request" sampleRequest { heap := [], sink := [] } rfl).2⟩

end server

namespace log

theorem toNat_ofNat_small (n : Nat) (h : n < 55296) : (Char.ofNat n).toNat = n := by
  have hv : n.isValidChar := Or.inl h
  simp [Char.ofNat, hv, Char.ofNatAux, Char.toNat, UInt32.toNat]

theorem eq_of_toNat_eq (c d : Char) (h : c.toNat = d.toNat) : c = d := by
  rw [← Char.ofNat_toNat c, ← Char.ofNat_toNat d, h]

theorem lowerASCII_toNat (c : Char) :
    (lowerASCII c).toNat = if 65 ≤ c.toNat ∧ c.toNat ≤ 90 then c.toNat + 32 else c.toNat := by
  unfold lowerASCII
  split
  · next h => exact toNat_ofNat_small _ (by omega)
  · rfl

theorem unicodeToUpper_toNat (table : Char → Char) (c : Char) (h : c.toNat ≤ 127) :
    (unicodeToUpper table c).toNat =
      if 97 ≤ c.toNat ∧ c.toNat ≤ 122 then c.toNat - 32 else c.toNat := by
  unfold unicodeToUpper
  rw [if_pos h]
  split
  · next h1 => exact toNat_ofNat_small _ (by omega)
  · rfl

theorem upper_eq_of_lower_eq (table : Char → Char) (c d : Char) (hd : d.toNat ≤ 127)
    (h : lowerASCII c = lowerASCII d) : unicodeToUpper table c = unicodeToUpper table d := by
  have hn : (lowerASCII c).toNat = (lowerASCII d).toNat := by rw [h]
  rw [lowerASCII_toNat, lowerASCII_toNat] at hn
  have hc : c.toNat ≤ 127 := by
    split_ifs at hn <;> omega
  apply eq_of_toNat_eq
  rw [unicodeToUpper_toNat table c hc, unicodeToUpper_toNat table d hd]
  split_ifs at hn ⊢ <;> omega

theorem lower_eq_of_upper_eq (table : Char → Char) (c d : Char) (hc : c.toNat ≤ 127)
    (hd : d.toNat ≤ 127) (h : unicodeToUpper table c = unicodeToUpper table d) :
    lowerASCII c = lowerASCII d := by
  have hn : (unicodeToUpper table c).toNat = (unicodeToUpper table d).toNat := by rw [h]
  rw [unicodeToUpper_toNat table c hc, unicodeToUpper_toNat table d hd] at hn
  apply eq_of_toNat_eq
  rw [lowerASCII_toNat, lowerASCII_toNat]
  split_ifs at hn ⊢ <;> omega

theorem map_upper_eq_of_map_lower_eq (table : Char → Char) (l1 l2 : List Char)
    (h2 : ∀ d ∈ l2, d.toNat ≤ 127) (h : l1.map lowerASCII = l2.map lowerASCII) :
    l1.map (unicodeToUpper table) = l2.map (unicodeToUpper table) := by
  induction l1 generalizing l2 with
  | nil =>
    cases l2 with
    | nil => rfl
    | cons d l2 => simp at h
  | cons c l1 ih =>
    cases l2 with
    | nil => simp at h
    | cons d l2 =>
      simp only [List.map_cons, List.cons.injEq] at h ⊢
      exact ⟨upper_eq_of_lower_eq table c d (h2 d (List.mem_cons_self _ _)) h.1,
        ih l2 (fun x hx => h2 x (List.mem_cons_of_mem _ hx)) h.2⟩

theorem map_lower_eq_of_map_upper_eq (table : Char → Char) (l1 l2 : List Char)
    (h1 : ∀ c ∈ l1, c.toNat ≤ 127) (h2 : ∀ d ∈ l2, d.toNat ≤ 127)
    (h : l1.map (unicodeToUpper table) = l2.map (unicodeToUpper table)) :
    l1.map lowerASCII = l2.map lowerASCII := by
  induction l1 generalizing l2 with
  | nil =>
    cases l2 with
    | nil => rfl
    | cons d l2 => simp at h
  | cons c l1 ih =>
    cases l2 with
    | nil => simp at h
    | cons d l2 =>
      simp only [List.map_cons, List.cons.injEq] at h ⊢
      exact ⟨lower_eq_of_upper_eq table c d (h1 c (List.mem_cons_self _ _))
          (h2 d (List.mem_cons_self _ _)) h.1,
        ih l2 (fun x hx => h1 x (List.mem_cons_of_mem _ hx))
          (fun x hx => h2 x (List.mem_cons_of_mem _ hx)) h.2⟩

theorem isASCII_iff (s : String) : isASCII s = true ↔ ∀ c ∈ s.data, c.toNat ≤ 127 := by
  simp [isASCII, List.all_eq_true]

/-- A text that equals an ASCII text ignoring letter case has the same upper-casing. -/
theorem upper_eq_of_equalsIgnoringCase (table : Char → Char) (s t : String)
    (ht : isASCII t = true) (h : equalsIgnoringCase s t = true) :
    stringsToUpper table s = stringsToUpper table t := by
  unfold stringsToUpper
  rw [map_upper_eq_of_map_lower_eq table s.data t.data ((isASCII_iff t).mp ht)
    (of_decide_eq_true h)]

/-- Two ASCII texts with the same upper-casing are equal ignoring letter case. -/
theorem equalsIgnoringCase_of_upper_eq (table : Char → Char) (s t : String)
    (hs : isASCII s = true) (ht : isASCII t = true)
    (h : stringsToUpper table s = stringsToUpper table t) :
    equalsIgnoringCase s t = true := by
  unfold stringsToUpper at h
  have hl : s.data.map (unicodeToUpper table) = t.data.map (unicodeToUpper table) := by
    injection h
  exact decide_eq_true (map_lower_eq_of_map_upper_eq table s.data t.data
    ((isASCII_iff s).mp hs) ((isASCII_iff t).mp ht) hl)

end log

namespace log

theorem upper_of_name (table : Char → Char) :
    stringsToUpper table "DEBUG" = "DEBUG" ∧ stringsToUpper table "INFO" = "INFO" ∧
    stringsToUpper table "WARN" = "WARN" ∧ stringsToUpper table "ERROR" = "ERROR" :=
  ⟨rfl, rfl, rfl, rfl⟩

theorem upper_ne_of_not_equalsIgnoringCase (table : Char → Char) (s t : String)
    (hs : isASCII s = true) (ht : isASCII t = true) (hup : stringsToUpper table t = t)
    (h : equalsIgnoringCase s t = false) : stringsToUpper table s ≠ t := by
  intro heq
  have h1 := equalsIgnoringCase_of_upper_eq table s t hs ht (heq.trans hup.symm)
  rw [h1] at h
  cases h

/-- C18: the level `Setup` gives the handler is Debug, Info, Warn or Error when
    `cfg.Level` equals "DEBUG", "INFO", "WARN" or "ERROR" ignoring letter case, and Debug
    for every other ASCII text, the empty one included.  For any text at all, the level
    is decided by the text upper-cased by `strings.ToUpper`: that of the name it becomes,
    and Debug when it becomes none of the four names. -/
theorem Setup_level_by_upper_cased_name (table : Char → Char) (fresh : Logger)
    (cfg : LogConfig) :
    (equalsIgnoringCase cfg.Level "DEBUG" = true →
      (Setup table fresh cfg).level = LevelDebug) ∧
    (equalsIgnoringCase cfg.Level "INFO" = true →
      (Setup table fresh cfg).level = LevelInfo) ∧
    (equalsIgnoringCase cfg.Level "WARN" = true →
      (Setup table fresh cfg).level = LevelWarn) ∧
    (equalsIgnoringCase cfg.Level "ERROR" = true →
      (Setup table fresh cfg).level = LevelError) ∧
    (isASCII cfg.Level = true →
      equalsIgnoringCase cfg.Level "DEBUG" = false →
      equalsIgnoringCase cfg.Level "INFO" = false →
      equalsIgnoringCase cfg.Level "WARN" = false →
      equalsIgnoringCase cfg.Level "ERROR" = false →
      (Setup table fresh cfg).level = LevelDebug) ∧
    (stringsToUpper table cfg.Level = "DEBUG" → (Setup table fresh cfg).level = LevelDebug) ∧
    (stringsToUpper table cfg.Level = "INFO" → (Setup table fresh cfg).level = LevelInfo) ∧
    (stringsToUpper table cfg.Level = "WARN" → (Setup table fresh cfg).level = LevelWarn) ∧
    (stringsToUpper table cfg.Level = "ERROR" → (Setup table fresh cfg).level = LevelError) ∧
    (stringsToUpper table cfg.Level ≠ "DEBUG" → stringsToUpper table cfg.Level ≠ "INFO" →
      stringsToUpper table cfg.Level ≠ "WARN" → stringsToUpper table cfg.Level ≠ "ERROR" →
      (Setup table fresh cfg).level = LevelDebug) ∧
    (Setup table fresh cfg).logger = fresh ∧
    (Setup table fresh ⟨""⟩).level = LevelDebug ∧
    (Setup table fresh ⟨"verbose"⟩).level = LevelDebug ∧
    (Setup table fresh ⟨"debug"⟩).level = LevelDebug ∧
    (Setup table fresh ⟨"info"⟩).level = LevelInfo ∧
    (Setup table fresh ⟨"Info"⟩).level = LevelInfo ∧
    (Setup table fresh ⟨"iNfO"⟩).level = LevelInfo ∧
    (Setup table fresh ⟨"Warn"⟩).level = LevelWarn ∧
    (Setup table fresh ⟨"errOR"⟩).level = LevelError := by
  obtain ⟨hD, hI, hW, hE⟩ := upper_of_name table
  have byUpper : ∀ name : String, stringsToUpper table name = name → isASCII name = true →
      equalsIgnoringCase cfg.Level name = true → stringsToUpper table cfg.Level = name :=
    fun name hup hascii h =>
      (upper_eq_of_equalsIgnoringCase table cfg.Level name hascii h).trans hup
  refine ⟨?_, ?_, ?_, ?_, ?_, ?_, ?_, ?_, ?_, ?_, rfl, rfl, rfl, rfl, rfl, rfl, rfl, rfl, rfl⟩
  · intro h; simp [Setup, byUpper "DEBUG" hD rfl h]
  · intro h; simp [Setup, byUpper "INFO" hI rfl h]
  · intro h; simp [Setup, byUpper "WARN" hW rfl h]
  · intro h; simp [Setup, byUpper "ERROR" hE rfl h]
  · intro hs h1 h2 h3 h4
    have n1 := upper_ne_of_not_equalsIgnoringCase table cfg.Level "DEBUG" hs rfl hD h1
    have n2 := upper_ne_of_not_equalsIgnoringCase table cfg.Level "INFO" hs rfl hI h2
    have n3 := upper_ne_of_not_equalsIgnoringCase table cfg.Level "WARN" hs rfl hW h3
    have n4 := upper_ne_of_not_equalsIgnoringCase table cfg.Level "ERROR" hs rfl hE h4
    simp [Setup, n1, n2, n3, n4]
  · intro h; simp [Setup, h]
  · intro h; simp [Setup, h]
  · intro h; simp [Setup, h]
  · intro h; simp [Setup, h]
  · intro h1 h2 h3 h4; simp [Setup, h1, h2, h3, h4]

/-- Witness for C18: `eRRor` equals `ERROR` ignoring letter case and gives Error;
    `errors` is an ASCII text that equals none of the four names and gives Debug. -/
theorem Setup_level_by_upper_cased_name_witness :
    equalsIgnoringCase "eRRor" "ERROR" = true ∧
    (Setup sampleTable ⟨9⟩ ⟨"eRRor"⟩).level = LevelError ∧
    isASCII "errors" = true ∧
    (Setup sampleTable ⟨9⟩ ⟨"errors"⟩).level = LevelDebug :=
  ⟨by decide,
   (Setup_level_by_upper_cased_name sampleTable ⟨9⟩ ⟨"eRRor"⟩).2.2.2.1 (by decide),
   by decide,
   (Setup_level_by_upper_cased_name sampleTable ⟨9⟩ ⟨"errors"⟩).2.2.2.2.1 (by decide)
     (by decide) (by decide) (by decide) (by decide)⟩

end log

namespace log

/-- The method `Commit` is its critical section followed at once by its emission. -/
theorem Commit_eq_locked_then_emit (we : WideEvent) (sink : List Record) (now : Time)
    (ctx : Context) (extra : List Attr) :
    we.Commit sink now ctx extra =
      (match WideEvent.Commit.locked we with
        | (we1, none) => (we1, sink)
        | (we1, some attrs) => (we1, WideEvent.Commit.emit we1 sink attrs now ctx extra)) := by
  cases h : we.committed with
  | true => simp [WideEvent.Commit, WideEvent.Commit.locked, h]
  | false => simp [WideEvent.Commit, WideEvent.Commit.locked, WideEvent.Commit.emit, h]

theorem locked_uncommitted (we : WideEvent) (h : we.committed = false) :
    WideEvent.Commit.locked we = ({ we with committed := true }, some we.attrs) := by
  simp [WideEvent.Commit.locked, h]

theorem locked_committed (we : WideEvent) (h : we.committed = true) :
    WideEvent.Commit.locked we = (we, none) := by
  simp [WideEvent.Commit.locked, h]

theorem emit_eq (we : WideEvent) (sink : List Record) (attrs : List Attr) (now : Time)
    (ctx : Context) (extra : List Attr) :
    WideEvent.Commit.emit we sink attrs now ctx extra =
      sink ++ [{ logger := we.logger, ctx := ctx, level := we.level, msg := we.message,
                 attrs := attrs ++
                   [slogTime "event_end" now, slogDuration "event_duration" (now.Sub we.start)]
                   ++ extra }] := by
  unfold WideEvent.Commit.emit
  by_cases h0 : extra.length > 0
  · simp [h0]
  · have : extra = [] := List.length_eq_zero.mp (Nat.eq_zero_of_not_pos h0)
    subst this
    simp

theorem opsOf_quiet (sched : List Atom) : ∀ op ∈ opsOf sched, op.isCommitting = false := by
  intro op hop
  simp only [opsOf, List.mem_filterMap] at hop
  obtain ⟨a, _, ha⟩ := hop
  cases a <;> simp [Atom.op?] at ha <;> subst ha <;> rfl

/-- Steps before any `Commit` has entered its critical section act on the event as the
    method calls they are, and leave the sink and the set of copies alone. -/
theorem run_before_lock (pre : List Atom) (we : WideEvent) (sink : List Record)
    (hun : we.committed = false) (hpre : ∀ a ∈ pre, a.isCommitLocked = false) :
    Shared.run { we := we, sink := sink, copies := [] } pre =
      { we := (run (we, sink) (opsOf pre)).1, sink := sink, copies := [] } := by
  induction pre generalizing we with
  | nil => rfl
  | cons a pre ih =>
    have hrest : ∀ x ∈ pre, x.isCommitLocked = false :=
      fun x hx => hpre x (List.mem_cons_of_mem _ hx)
    have ha := hpre a (List.mem_cons_self _ _)
    have hfold : Shared.run { we := we, sink := sink, copies := [] } (a :: pre) =
        Shared.run (Shared.step { we := we, sink := sink, copies := [] } a) pre := rfl
    rw [hfold]
    cases a with
    | add attrs =>
      have hq := (step_quiet (we, sink) (Op.add attrs) rfl).2
      exact ih (we.Add attrs) (hq.trans hun) hrest
    | setLevel level =>
      have hq := (step_quiet (we, sink) (Op.setLevel level) rfl).2
      exact ih (we.SetLevel level) (hq.trans hun) hrest
    | setMessage msg =>
      have hq := (step_quiet (we, sink) (Op.setMessage msg) rfl).2
      exact ih (we.SetMessage msg) (hq.trans hun) hrest
    | commitLocked call => simp [Atom.isCommitLocked] at ha
    | commitEmit call now ctx extra => exact ih we hun hrest

theorem run_ops_attrs (pre : List Atom) (we : WideEvent) (sink : List Record)
    (hun : we.committed = false) :
    (run (we, sink) (opsOf pre)).1.attrs = we.attrs ++ addedAttrs pre := by
  induction pre generalizing we with
  | nil => simp [opsOf, addedAttrs, run]
  | cons a pre ih =>
    cases a with
    | add attrs =>
      have hq := (step_quiet (we, sink) (Op.add attrs) rfl).2
      have h := ih (we.Add attrs) (hq.trans hun)
      have hfold : run (we, sink) (opsOf (Atom.add attrs :: pre)) =
          run (we.Add attrs, sink) (opsOf pre) := rfl
      rw [hfold, h, Add_uncommitted we attrs hun]
      simp [addedAttrs]
    | setLevel level =>
      have hq := (step_quiet (we, sink) (Op.setLevel level) rfl).2
      have h := ih (we.SetLevel level) (hq.trans hun)
      have hfold : run (we, sink) (opsOf (Atom.setLevel level :: pre)) =
          run (we.SetLevel level, sink) (opsOf pre) := rfl
      rw [hfold, h, SetLevel_uncommitted we level hun]
      simp [addedAttrs]
    | setMessage msg =>
      have hq := (step_quiet (we, sink) (Op.setMessage msg) rfl).2
      have h := ih (we.SetMessage msg) (hq.trans hun)
      have hfold : run (we, sink) (opsOf (Atom.setMessage msg :: pre)) =
          run (we.SetMessage msg, sink) (opsOf pre) := rfl
      have hattrs : (we.SetMessage msg).attrs = we.attrs := by
        unfold WideEvent.SetMessage
        split
        · rfl
        · simp [hun]
      rw [hfold, h, hattrs]
      simp [addedAttrs]
    | commitLocked call => exact ih we hun
    | commitEmit call now ctx extra => exact ih we hun

/-- While one call holds a copy and the event is committed, every step except the
    emission of that call changes nothing. -/
theorem run_between_lock_and_emit (mid : List Atom) (we : WideEvent) (sink : List Record)
    (call : Nat) (copy : List Attr) (hc : we.committed = true)
    (hmid : ∀ a ∈ mid, a.isEmitOf call = false) :
    Shared.run { we := we, sink := sink, copies := [(call, copy)] } mid =
      { we := we, sink := sink, copies := [(call, copy)] } := by
  induction mid with
  | nil => rfl
  | cons a mid ih =>
    have hrest : ∀ x ∈ mid, x.isEmitOf call = false :=
      fun x hx => hmid x (List.mem_cons_of_mem _ hx)
    have ha := hmid a (List.mem_cons_self _ _)
    have hfold : Shared.run { we := we, sink := sink, copies := [(call, copy)] } (a :: mid) =
        Shared.run (Shared.step { we := we, sink := sink, copies := [(call, copy)] } a)
          mid := rfl
    rw [hfold]
    have hstep : Shared.step { we := we, sink := sink, copies := [(call, copy)] } a =
        { we := we, sink := sink, copies := [(call, copy)] } := by
      cases a with
      | add attrs => simp [Shared.step, Add_committed we attrs hc]
      | setLevel level => simp [Shared.step, SetLevel_committed we level hc]
      | setMessage msg => simp [Shared.step, SetMessage_committed we msg hc]
      | commitLocked c => simp [Shared.step, locked_committed we hc]
      | commitEmit c now ctx extra =>
        simp only [Atom.isEmitOf] at ha
        simp [Shared.step, List.lookup, ha]
    rw [hstep]
    exact ih hrest

/-- Once the event is committed and no call holds a copy, no step changes anything. -/
theorem run_after_emit (post : List Atom) (we : WideEvent) (sink : List Record)
    (hc : we.committed = true) :
    Shared.run { we := we, sink := sink, copies := [] } post =
      { we := we, sink := sink, copies := [] } := by
  induction post with
  | nil => rfl
  | cons a post ih =>
    have hfold : Shared.run { we := we, sink := sink, copies := [] } (a :: post) =
        Shared.run (Shared.step { we := we, sink := sink, copies := [] } a) post := rfl
    rw [hfold]
    have hstep : Shared.step { we := we, sink := sink, copies := [] } a =
        { we := we, sink := sink, copies := [] } := by
      cases a with
      | add attrs => simp [Shared.step, Add_committed we attrs hc]
      | setLevel level => simp [Shared.step, SetLevel_committed we level hc]
      | setMessage msg => simp [Shared.step, SetMessage_committed we msg hc]
      | commitLocked c => simp [Shared.step, locked_committed we hc]
      | commitEmit c now ctx extra => simp [Shared.step, List.lookup]
    rw [hstep]
    exact ih

theorem Shared_run_append (s : Shared) (xs ys : List Atom) :
    Shared.run s (xs ++ ys) = Shared.run (Shared.run s xs) ys := by
  simp [Shared.run, List.foldl_append]

end log

namespace log

theorem step_of_committed (we : WideEvent) (sink : List Record)
    (copies : List (Nat × List Attr)) (a : Atom) (hc : we.committed = true)
    (ha : ∀ c now ctx extra, a ≠ Atom.commitEmit c now ctx extra) :
    Shared.step { we := we, sink := sink, copies := copies } a =
      { we := we, sink := sink, copies := copies } := by
  cases a with
  | add attrs => simp [Shared.step, Add_committed we attrs hc]
  | setLevel level => simp [Shared.step, SetLevel_committed we level hc]
  | setMessage msg => simp [Shared.step, SetMessage_committed we msg hc]
  | commitLocked c => simp [Shared.step, locked_committed we hc]
  | commitEmit c now ctx extra => exact absurd rfl (ha c now ctx extra)

theorem step_emit_held (we : WideEvent) (sink : List Record) (call : Nat)
    (copy : List Attr) (now : Time) (ctx : Context) (extra : List Attr) :
    Shared.step { we := we, sink := sink, copies := [(call, copy)] }
        (Atom.commitEmit call now ctx extra) =
      { we := we, sink := WideEvent.Commit.emit we sink copy now ctx extra, copies := [] } := by
  simp [Shared.step, List.lookup]

theorem step_emit_not_held (we : WideEvent) (sink : List Record) (call c : Nat)
    (copy : List Attr) (now : Time) (ctx : Context) (extra : List Attr) (h : c ≠ call) :
    Shared.step { we := we, sink := sink, copies := [(call, copy)] }
        (Atom.commitEmit c now ctx extra) =
      { we := we, sink := sink, copies := [(call, copy)] } := by
  have hb : (c == call) = false := by simpa using h
  simp [Shared.step, List.lookup, hb]

theorem step_emit_no_copy (we : WideEvent) (sink : List Record) (c : Nat) (now : Time)
    (ctx : Context) (extra : List Attr) :
    Shared.step { we := we, sink := sink, copies := [] } (Atom.commitEmit c now ctx extra) =
      { we := we, sink := sink, copies := [] } := by
  simp [Shared.step, List.lookup]

theorem step_lock_uncommitted (we : WideEvent) (sink : List Record) (c : Nat)
    (hun : we.committed = false) :
    Shared.step { we := we, sink := sink, copies := [] } (Atom.commitLocked c) =
      { we := { we with committed := true }, sink := sink, copies := [(c, we.attrs)] } := by
  simp [Shared.step, locked_uncommitted we hun]

theorem step_phase (sink0 : List Record) (s : Shared) (a : Atom)
    (h : Shared.phase sink0 s) : Shared.phase sink0 (Shared.step s a) := by
  obtain ⟨we, sink, copies⟩ := s
  rcases h with ⟨hun, hcp, hsk⟩ | ⟨hc, ⟨call, copy, hcp⟩, hsk⟩ | ⟨hc, hcp, rec, hsk⟩
  · simp only at hun hcp hsk
    subst hcp hsk
    cases a with
    | add attrs =>
      exact Or.inl ⟨((step_quiet (we, sink) (Op.add attrs) rfl).2).trans hun, rfl, rfl⟩
    | setLevel level =>
      exact Or.inl ⟨((step_quiet (we, sink) (Op.setLevel level) rfl).2).trans hun, rfl, rfl⟩
    | setMessage msg =>
      exact Or.inl ⟨((step_quiet (we, sink) (Op.setMessage msg) rfl).2).trans hun, rfl, rfl⟩
    | commitLocked c =>
      rw [step_lock_uncommitted we sink c hun]
      exact Or.inr (Or.inl ⟨rfl, ⟨c, we.attrs, rfl⟩, rfl⟩)
    | commitEmit c now ctx extra =>
      rw [step_emit_no_copy]
      exact Or.inl ⟨hun, rfl, rfl⟩
  · simp only at hc hcp hsk
    subst hcp hsk
    by_cases hemit : ∃ c now ctx extra, a = Atom.commitEmit c now ctx extra
    · obtain ⟨c, now, ctx, extra, ha⟩ := hemit
      subst ha
      by_cases hcc : c = call
      · subst hcc
        rw [step_emit_held, emit_eq]
        exact Or.inr (Or.inr ⟨hc, rfl, _, rfl⟩)
      · rw [step_emit_not_held we sink call c copy now ctx extra hcc]
        exact Or.inr (Or.inl ⟨hc, ⟨call, copy, rfl⟩, rfl⟩)
    · rw [step_of_committed we sink _ a hc
        (fun c now ctx extra h => hemit ⟨c, now, ctx, extra, h⟩)]
      exact Or.inr (Or.inl ⟨hc, ⟨call, copy, rfl⟩, rfl⟩)
  · simp only at hc hcp hsk
    subst hcp hsk
    by_cases hemit : ∃ c now ctx extra, a = Atom.commitEmit c now ctx extra
    · obtain ⟨c, now, ctx, extra, ha⟩ := hemit
      subst ha
      rw [step_emit_no_copy]
      exact Or.inr (Or.inr ⟨hc, rfl, rec, rfl⟩)
    · rw [step_of_committed we _ _ a hc
        (fun c now ctx extra h => hemit ⟨c, now, ctx, extra, h⟩)]
      exact Or.inr (Or.inr ⟨hc, rfl, rec, rfl⟩)

theorem run_phase (sink0 : List Record) (sched : List Atom) (s : Shared)
    (h : Shared.phase sink0 s) : Shared.phase sink0 (Shared.run s sched) := by
  induction sched generalizing s with
  | nil => exact h
  | cons a sched ih => exact ih (Shared.step s a) (step_phase sink0 s a h)

end log

namespace log

theorem run_ops_fixed (pre : List Atom) (we : WideEvent) (sink : List Record) :
    (run (we, sink) (opsOf pre)).1.logger = we.logger ∧
    (run (we, sink) (opsOf pre)).1.start = we.start := by
  induction pre generalizing we with
  | nil => exact ⟨rfl, rfl⟩
  | cons a pre ih =>
    cases a with
    | add attrs =>
      have h := ih (we.Add attrs)
      have hfix : (we.Add attrs).logger = we.logger ∧ (we.Add attrs).start = we.start := by
        unfold WideEvent.Add
        split
        · exact ⟨rfl, rfl⟩
        · split <;> exact ⟨rfl, rfl⟩
      exact ⟨h.1.trans hfix.1, h.2.trans hfix.2⟩
    | setLevel level =>
      have h := ih (we.SetLevel level)
      have hfix : (we.SetLevel level).logger = we.logger ∧
          (we.SetLevel level).start = we.start := by
        unfold WideEvent.SetLevel
        split <;> exact ⟨rfl, rfl⟩
      exact ⟨h.1.trans hfix.1, h.2.trans hfix.2⟩
    | setMessage msg =>
      have h := ih (we.SetMessage msg)
      have hfix : (we.SetMessage msg).logger = we.logger ∧
          (we.SetMessage msg).start = we.start := by
        unfold WideEvent.SetMessage
        split
        · exact ⟨rfl, rfl⟩
        · split <;> exact ⟨rfl, rfl⟩
      exact ⟨h.1.trans hfix.1, h.2.trans hfix.2⟩
    | commitLocked call => exact ih we
    | commitEmit call now ctx extra => exact ih we

/-- C16: for every interleaving of the atomic steps of concurrent `Add`, `SetLevel`,
    `SetMessage` and `Commit` calls on an event created by `New`, at most one record is
    emitted; and when the `Commit` call `call` is the first to enter its critical section
    (after the steps `pre`) and later emits (after the steps `mid` of other calls), the
    one record emitted carries the attributes of `New`, then those of every `Add` of
    `pre` in order, then `event_end`, `event_duration` and the extra attributes of that
    call, at the level and with the message set last in `pre`; the steps of `mid` and
    `post` (further `Add`, `SetLevel`, `SetMessage` and `Commit` calls) change neither the
    record nor the sink, and the attributes they add are not kept in the event. -/
theorem interleaved_calls_emit_once (dflt : Logger) (now0 : Time) (rnd : List (Fin 256))
    (name : String) (initial : List Attr) (sink : List Record) (sched : List Atom) :
    (∃ recs,
      (Shared.run { we := New dflt now0 rnd name initial, sink := sink, copies := [] }
        sched).sink = sink ++ recs ∧ recs.length ≤ 1) ∧
    ∀ (pre mid post : List Atom) (call : Nat) (now : Time) (ctx : Context)
      (extra : List Attr),
      sched = pre ++ Atom.commitLocked call ::
        (mid ++ Atom.commitEmit call now ctx extra :: post) →
      (∀ a ∈ pre, a.isCommitLocked = false) →
      (∀ a ∈ mid, a.isEmitOf call = false) →
      (Shared.run { we := New dflt now0 rnd name initial, sink := sink, copies := [] }
        sched).sink =
        sink ++ [{ logger := dflt, ctx := ctx,
                   level := (lastLevel (opsOf pre)).getD LevelInfo,
                   msg := (lastMessage (opsOf pre)).getD name,
                   attrs := [slogString "event" name, slogString "event_id" (newEventID rnd),
                             slogTime "event_start" now0] ++ initial ++ addedAttrs pre ++
                            [slogTime "event_end" now,
                             slogDuration "event_duration" (now.Sub now0)] ++ extra }] ∧
      (Shared.run { we := New dflt now0 rnd name initial, sink := sink, copies := [] }
        sched).we.attrs =
        [slogString "event" name, slogString "event_id" (newEventID rnd),
         slogTime "event_start" now0] ++ initial ++ addedAttrs pre ∧
      (Shared.run { we := New dflt now0 rnd name initial, sink := sink, copies := [] }
        sched).we.committed = true ∧
      (Shared.run { we := New dflt now0 rnd name initial, sink := sink, copies := [] }
        sched).copies = [] := by
  have hnew := New_committed dflt now0 rnd name initial
  constructor
  · have h := run_phase sink sched
      { we := New dflt now0 rnd name initial, sink := sink, copies := [] }
      (Or.inl ⟨hnew, rfl, rfl⟩)
    rcases h with ⟨_, _, hsk⟩ | ⟨_, _, hsk⟩ | ⟨_, _, rec, hsk⟩
    · exact ⟨[], by rw [hsk]; simp, by simp⟩
    · exact ⟨[], by rw [hsk]; simp, by simp⟩
    · exact ⟨[rec], hsk, by simp⟩
  · intro pre mid post call now ctx extra hs hpre hmid
    have hq := run_quiet (New dflt now0 rnd name initial, sink) (opsOf pre) (opsOf_quiet pre)
    have hun : (run (New dflt now0 rnd name initial, sink) (opsOf pre)).1.committed = false :=
      hq.2.trans hnew
    have hlm := run_level_message (opsOf pre) (New dflt now0 rnd name initial) sink hnew
      (opsOf_quiet pre)
    have hat := run_ops_attrs pre (New dflt now0 rnd name initial) sink hnew
    have hfx := run_ops_fixed pre (New dflt now0 rnd name initial) sink
    have hrun : Shared.run
        { we := New dflt now0 rnd name initial, sink := sink, copies := [] } sched =
        { we := { (run (New dflt now0 rnd name initial, sink) (opsOf pre)).1 with
                  committed := true }
          sink := WideEvent.Commit.emit
            { (run (New dflt now0 rnd name initial, sink) (opsOf pre)).1 with
              committed := true }
            sink (run (New dflt now0 rnd name initial, sink) (opsOf pre)).1.attrs
            now ctx extra
          copies := [] } := by
      rw [hs, Shared_run_append, run_before_lock pre _ sink hnew hpre]
      have hcons : ∀ (s : Shared) (a : Atom) (rest : List Atom),
          Shared.run s (a :: rest) = Shared.run (Shared.step s a) rest := fun _ _ _ => rfl
      rw [hcons, step_lock_uncommitted _ sink call hun, Shared_run_append,
        run_between_lock_and_emit mid _ sink call _ rfl hmid, hcons, step_emit_held,
        run_after_emit post _ _ rfl]
    rw [hrun]
    refine ⟨?_, ?_, rfl, rfl⟩
    · rw [emit_eq]
      simp only [hlm.1, hlm.2, hat, hfx.1, hfx.2]
      rw [New_eq]
    · show (run (New dflt now0 rnd name initial, sink) (opsOf pre)).1.attrs = _
      rw [hat, New_eq]

/-- Witness for C16: in `sampleSchedule` call 1 enters its critical section first; the
    record has the two attributes added before that and the level set before that, and
    neither the later `Add` calls nor the second `Commit` show in the sink. -/
theorem interleaved_calls_emit_once_witness :
    (Shared.run { we := New ⟨1⟩ ⟨100, some 1100⟩ sampleBytes "checkout" [], sink := [],
                  copies := [] } sampleSchedule).sink =
      [{ logger := ⟨1⟩, ctx := Context.background, level := LevelWarn, msg := "checkout",
         attrs := [slogString "event" "checkout",
                   slogString "event_id" "abababababababababababababababab",
                   slogTime "event_start" ⟨100, some 1100⟩,
                   slogString "user" "u1", slogBool "paid" true,
                   slogTime "event_end" ⟨150, some 1150⟩, slogDuration "event_duration" 50,
                   slogBool "final" true] }] :=
  ((interleaved_calls_emit_once ⟨1⟩ ⟨100, some 1100⟩ sampleBytes "checkout" [] []
      sampleSchedule).2
    [Atom.add [slogString "user" "u1"], Atom.setLevel LevelWarn,
     Atom.add [slogBool "paid" true]]
    [Atom.add [slogString "late" "x"], Atom.setLevel LevelError, Atom.commitLocked 2,
     Atom.commitEmit 2 ⟨160, some 1160⟩ Context.background []]
    [Atom.add [slogString "later" "y"]]
    1 ⟨150, some 1150⟩ Context.background [slogBool "final" true] rfl
    (by decide) (by decide)).1.trans (by decide)

end log
